import Mathlib

/-!
Verification of the py-xiaozhi voice-client repository.

This file gives a shallow embedding, in Lean 4, of the parts of the
repository that the checked properties talk about:

* the broker (MQTT/UDP) transport's audio packet construction
  (`MqttProtocol.send_audio`), its AES-CTR encryption and decryption
  helpers (`aes_ctr_encrypt` / `aes_ctr_decrypt`), its UDP receive loop
  (`_udp_receive_thread`) and teardown (`close_audio_channel` /
  `_handle_goodbye`);
* the websocket transport's teardown (`close_audio_channel`);
* the session controller (`Application`): the incoming-audio callback,
  `abort_speaking`, the bounded command queue (`_enqueue_command`), the
  bounded audio queues (`AudioCodec._put_audio_data_safe`) and the
  microphone-forwarding predicate (`_should_send_microphone_audio`).

Machine bytes are modelled as `Nat` values below 256 and hex strings as
lists of nibble values below 16.  The AES-128 block cipher (provided in
the Python code by the `cryptography` library) is implemented in full so
that the CTR-mode statements are about the real cipher; the
implementation is validated against the FIPS-197 example vector.
-/

set_option maxRecDepth 100000

set_option maxHeartbeats 1000000

/-! ### Hex strings and byte strings

A Python hex string is modelled as a `List Nat` of nibble values
(`0 ≤ d < 16`); a byte string as a `List Nat` of byte values
(`0 ≤ b < 256`). -/

/-- Big-endian base-16 digit expansion, structurally recursive on a
fuel bound so that it evaluates by kernel reduction. -/
def hexRepAux : Nat → Nat → List Nat
  | 0, _ => []
  | fuel + 1, n => if n = 0 then [] else hexRepAux fuel (n / 16) ++ [n % 16]

/-- The natural big-endian base-16 digit expansion of `n` (empty for 0),
as produced by Python's `format(n, "x")` without padding. -/
def hexRep (n : Nat) : List Nat := hexRepAux n n

theorem hexRepAux_stable : ∀ f1 f2 n : Nat, n ≤ f1 → n ≤ f2 →
    hexRepAux f1 n = hexRepAux f2 n
  | 0, 0, _, _, _ => rfl
  | 0, _ + 1, n, h1, _ => by
    have hn : n = 0 := by omega
    simp [hexRepAux, hn]
  | _ + 1, 0, n, _, h2 => by
    have hn : n = 0 := by omega
    simp [hexRepAux, hn]
  | f1 + 1, f2 + 1, n, h1, h2 => by
    show (if n = 0 then [] else hexRepAux f1 (n / 16) ++ [n % 16]) =
      (if n = 0 then [] else hexRepAux f2 (n / 16) ++ [n % 16])
    split
    · rfl
    · rw [hexRepAux_stable f1 f2 (n / 16) (by omega) (by omega)]

theorem hexRep_unfold (n : Nat) :
    hexRep n = if n = 0 then [] else hexRep (n / 16) ++ [n % 16] := by
  unfold hexRep
  cases n with
  | zero => rfl
  | succ m =>
    show (if m + 1 = 0 then [] else hexRepAux m ((m + 1) / 16) ++ [(m + 1) % 16]) = _
    rw [if_neg (by omega), if_neg (by omega)]
    rw [hexRepAux_stable m ((m + 1) / 16) ((m + 1) / 16) (by omega) (by omega)]

/-- Python `format(n, "0{w}x")`: the hex digits of `n`, zero-padded on
the left to a minimum width of `w` (wider if `n` needs more digits). -/
def pyHex (w : Nat) (n : Nat) : List Nat :=
  let d := if n = 0 then [0] else hexRep n
  List.replicate (w - d.length) 0 ++ d

/-- Horner evaluation of a big-endian nibble list. -/
def hexVal (l : List Nat) : Nat :=
  l.foldl (fun a d => 16 * a + d) 0

/-- Pair up nibbles into bytes (big-endian within each byte), as
`bytes.fromhex` does once the length is known to be even. -/
def nibblePairs : List Nat → List Nat
  | h :: l :: t => (16 * h + l) :: nibblePairs t
  | _ => []

/-- Python `bytes.fromhex`: fails on an odd number of digits or an
invalid digit, otherwise pairs nibbles into bytes. -/
def pyFromHex (l : List Nat) : Option (List Nat) :=
  if l.length % 2 = 0 ∧ l.all (· < 16) then some (nibblePairs l) else none

/-- Horner evaluation of a big-endian byte list. -/
def bytesToNat (l : List Nat) : Nat :=
  l.foldl (fun a b => 256 * a + b) 0

/-- The `len` low-order bytes of `n`, big-endian. -/
def natToBytes : Nat → Nat → List Nat
  | 0, _ => []
  | len + 1, n => natToBytes len (n / 256) ++ [n % 256]

theorem hexVal_snoc (l : List Nat) (x : Nat) :
    hexVal (l ++ [x]) = 16 * hexVal l + x := by
  simp [hexVal, List.foldl_append]

theorem hexVal_hexRep (n : Nat) : hexVal (hexRep n) = n := by
  induction n using Nat.strong_induction_on with
  | _ n ih =>
    rw [hexRep_unfold]
    split
    · simp [hexVal]; omega
    · rw [hexVal_snoc, ih (n / 16) (Nat.div_lt_self (by omega) (by omega))]
      omega

theorem hexVal_replicate_zero (k : Nat) (l : List Nat) :
    hexVal (List.replicate k 0 ++ l) = hexVal l := by
  induction k with
  | zero => rfl
  | succ k ih => simpa [List.replicate_succ, hexVal] using ih

/-- `format(n, "0{w}x")` always evaluates back to `n`. -/
theorem hexVal_pyHex (w n : Nat) : hexVal (pyHex w n) = n := by
  unfold pyHex
  split
  · rw [hexVal_replicate_zero]; simp [hexVal]; omega
  · rw [hexVal_replicate_zero, hexVal_hexRep]

theorem hexRep_length_le (w : Nat) : ∀ n : Nat, n < 16 ^ w → (hexRep n).length ≤ w := by
  induction w with
  | zero => intro n h; interval_cases n; simp [hexRep, hexRepAux]
  | succ w ih =>
    intro n h
    rw [hexRep_unfold]
    split
    · simp
    · have : n / 16 < 16 ^ w := by
        rw [pow_succ] at h
        omega
      simpa using Nat.succ_le_succ (ih (n / 16) this)

theorem pyHex_length (w n : Nat) (hw : 0 < w) (h : n < 16 ^ w) :
    (pyHex w n).length = w := by
  unfold pyHex
  split
  · simp; omega
  · have hle := hexRep_length_le w n h
    simp [List.length_append, List.length_replicate]
    omega

theorem bytesToNat_snoc (l : List Nat) (x : Nat) :
    bytesToNat (l ++ [x]) = 256 * bytesToNat l + x := by
  simp [bytesToNat, List.foldl_append]

theorem hornerFoldl (l : List Nat) (a : Nat) :
    l.foldl (fun x b => 256 * x + b) a = 256 ^ l.length * a + bytesToNat l := by
  induction l generalizing a with
  | nil => simp [bytesToNat]
  | cons b t ih =>
    show t.foldl _ (256 * a + b) = _
    rw [ih (256 * a + b)]
    have hb : bytesToNat (b :: t) = t.foldl (fun x b => 256 * x + b) (256 * 0 + b) := rfl
    rw [hb, ih (256 * 0 + b)]
    simp [pow_succ]
    ring

theorem bytesToNat_cons (b : Nat) (t : List Nat) :
    bytesToNat (b :: t) = 256 ^ t.length * b + bytesToNat t := by
  have h : bytesToNat (b :: t) = t.foldl (fun x b => 256 * x + b) (256 * 0 + b) := rfl
  rw [h, hornerFoldl]
  ring_nf

theorem bytesToNat_lt (l : List Nat) (h : ∀ b ∈ l, b < 256) :
    bytesToNat l < 256 ^ l.length := by
  induction l with
  | nil => simp [bytesToNat]
  | cons b t ih =>
    rw [bytesToNat_cons]
    have hb : b < 256 := h b (by simp)
    have ht := ih (fun x hx => h x (by simp [hx]))
    have h1 : 256 ^ t.length * b + bytesToNat t < 256 ^ t.length * (b + 1) := by
      nlinarith
    have h2 : 256 ^ t.length * (b + 1) ≤ 256 ^ t.length * 256 :=
      Nat.mul_le_mul_left _ (by omega)
    have h3 : (256 : Nat) ^ t.length * 256 = 256 ^ (b :: t).length := by
      simp [pow_succ]
    omega

theorem natToBytes_length (len n : Nat) : (natToBytes len n).length = len := by
  induction len generalizing n with
  | zero => rfl
  | succ len ih => simp [natToBytes, ih]

/-- Recovering the byte string from its big-endian value. -/
theorem natToBytes_bytesToNat (l : List Nat) (h : ∀ b ∈ l, b < 256) :
    natToBytes l.length (bytesToNat l) = l := by
  induction l using List.reverseRecOn with
  | nil => rfl
  | append_singleton t x ih =>
    have hx : x < 256 := h x (by simp)
    rw [bytesToNat_snoc]
    have hlen : (t ++ [x]).length = t.length + 1 := by simp
    rw [hlen]
    show natToBytes t.length ((256 * bytesToNat t + x) / 256) ++
        [(256 * bytesToNat t + x) % 256] = t ++ [x]
    have h1 : (256 * bytesToNat t + x) / 256 = bytesToNat t := by omega
    have h2 : (256 * bytesToNat t + x) % 256 = x := by omega
    rw [h1, h2, ih (fun b hb => h b (by simp [hb]))]

theorem nibblePairs_append :
    ∀ a : List Nat, a.length % 2 = 0 → ∀ b : List Nat,
      nibblePairs (a ++ b) = nibblePairs a ++ nibblePairs b
  | [], _, b => rfl
  | [x], h, _ => by simp at h
  | hi :: lo :: t, h, b => by
    have ht : t.length % 2 = 0 := by simp at h; omega
    simp only [List.cons_append]
    show (16 * hi + lo) :: nibblePairs (t ++ b) = _
    rw [nibblePairs_append t ht b]
    rfl

theorem nibblePairs_length : ∀ l : List Nat, (nibblePairs l).length = l.length / 2
  | [] => rfl
  | [_] => by show (0 : Nat) = 1 / 2; norm_num
  | hi :: lo :: t => by
    show (nibblePairs t).length + 1 = _
    rw [nibblePairs_length t]
    simp
    omega

theorem hexFoldl (l : List Nat) (a : Nat) :
    l.foldl (fun x d => 16 * x + d) a = 16 ^ l.length * a + hexVal l := by
  induction l generalizing a with
  | nil => simp [hexVal]
  | cons d t ih =>
    show t.foldl _ (16 * a + d) = _
    rw [ih (16 * a + d)]
    have hd : hexVal (d :: t) = t.foldl (fun x d => 16 * x + d) (16 * 0 + d) := rfl
    rw [hd, ih (16 * 0 + d)]
    simp [pow_succ]
    ring

/-- Pairing nibbles into bytes preserves the Horner value. -/
theorem bytesToNat_nibblePairs :
    ∀ l : List Nat, l.length % 2 = 0 → bytesToNat (nibblePairs l) = hexVal l
  | [], _ => rfl
  | [_], h => by simp at h
  | hi :: lo :: t, h => by
    have ht : t.length % 2 = 0 := by simp at h; omega
    rw [show nibblePairs (hi :: lo :: t) = (16 * hi + lo) :: nibblePairs t from rfl]
    rw [bytesToNat_cons, bytesToNat_nibblePairs t ht, nibblePairs_length]
    have hv : hexVal (hi :: lo :: t) =
        t.foldl (fun x d => 16 * x + d) (16 * (16 * 0 + hi) + lo) := rfl
    rw [hv, hexFoldl]
    have hp : (256 : Nat) ^ (t.length / 2) = 16 ^ t.length := by
      have h2 : (256 : Nat) = 16 ^ 2 := by norm_num
      rw [h2, ← pow_mul]
      congr 1
      omega
    rw [hp]
    ring_nf

/-! ### AES-128

The Python code encrypts with `cryptography`'s AES in CTR mode.  The
block cipher is implemented here in full (FIPS-197) over `Nat` bytes:
`g2` is multiplication by `x` in GF(2⁸), `gmul` general multiplication,
`ginv` the multiplicative inverse (as `x^254`), from which the S-box is
built by the affine transformation. -/

/-- Multiplication by `x` (i.e. by 2) in GF(2⁸) with the AES reduction
polynomial `0x11B`. -/
def g2 (x : Nat) : Nat :=
  ((2 * x) ^^^ (if 128 ≤ x then 27 else 0)) % 256

def g3 (x : Nat) : Nat := (g2 x ^^^ x) % 256

def g4 (x : Nat) : Nat := g2 (g2 x)

def g8 (x : Nat) : Nat := g2 (g4 x)

def g9 (x : Nat) : Nat := (g8 x ^^^ x) % 256

def g11 (x : Nat) : Nat := (g8 x ^^^ g2 x ^^^ x) % 256

def g13 (x : Nat) : Nat := (g8 x ^^^ g4 x ^^^ x) % 256

def g14 (x : Nat) : Nat := (g8 x ^^^ g4 x ^^^ g2 x) % 256

/-- The AES S-box (FIPS-197 Figure 7). -/
def sboxTable : List Nat :=
  [99, 124, 119, 123, 242, 107, 111, 197, 48, 1, 103, 43, 254, 215, 171, 118,
   202, 130, 201, 125, 250, 89, 71, 240, 173, 212, 162, 175, 156, 164, 114, 192,
   183, 253, 147, 38, 54, 63, 247, 204, 52, 165, 229, 241, 113, 216, 49, 21,
   4, 199, 35, 195, 24, 150, 5, 154, 7, 18, 128, 226, 235, 39, 178, 117,
   9, 131, 44, 26, 27, 110, 90, 160, 82, 59, 214, 179, 41, 227, 47, 132,
   83, 209, 0, 237, 32, 252, 177, 91, 106, 203, 190, 57, 74, 76, 88, 207,
   208, 239, 170, 251, 67, 77, 51, 133, 69, 249, 2, 127, 80, 60, 159, 168,
   81, 163, 64, 143, 146, 157, 56, 245, 188, 182, 218, 33, 16, 255, 243, 210,
   205, 12, 19, 236, 95, 151, 68, 23, 196, 167, 126, 61, 100, 93, 25, 115,
   96, 129, 79, 220, 34, 42, 144, 136, 70, 238, 184, 20, 222, 94, 11, 219,
   224, 50, 58, 10, 73, 6, 36, 92, 194, 211, 172, 98, 145, 149, 228, 121,
   231, 200, 55, 109, 141, 213, 78, 169, 108, 86, 244, 234, 101, 122, 174, 8,
   186, 120, 37, 46, 28, 166, 180, 198, 232, 221, 116, 31, 75, 189, 139, 138,
   112, 62, 181, 102, 72, 3, 246, 14, 97, 53, 87, 185, 134, 193, 29, 158,
   225, 248, 152, 17, 105, 217, 142, 148, 155, 30, 135, 233, 206, 85, 40, 223,
   140, 161, 137, 13, 191, 230, 66, 104, 65, 153, 45, 15, 176, 84, 187, 22]

/-- The inverse AES S-box (FIPS-197 Figure 14). -/
def invSboxTable : List Nat :=
  [82, 9, 106, 213, 48, 54, 165, 56, 191, 64, 163, 158, 129, 243, 215, 251,
   124, 227, 57, 130, 155, 47, 255, 135, 52, 142, 67, 68, 196, 222, 233, 203,
   84, 123, 148, 50, 166, 194, 35, 61, 238, 76, 149, 11, 66, 250, 195, 78,
   8, 46, 161, 102, 40, 217, 36, 178, 118, 91, 162, 73, 109, 139, 209, 37,
   114, 248, 246, 100, 134, 104, 152, 22, 212, 164, 92, 204, 93, 101, 182, 146,
   108, 112, 72, 80, 253, 237, 185, 218, 94, 21, 70, 87, 167, 141, 157, 132,
   144, 216, 171, 0, 140, 188, 211, 10, 247, 228, 88, 5, 184, 179, 69, 6,
   208, 44, 30, 143, 202, 63, 15, 2, 193, 175, 189, 3, 1, 19, 138, 107,
   58, 145, 17, 65, 79, 103, 220, 234, 151, 242, 207, 206, 240, 180, 230, 115,
   150, 172, 116, 34, 231, 173, 53, 133, 226, 249, 55, 232, 28, 117, 223, 110,
   71, 241, 26, 113, 29, 41, 197, 137, 111, 183, 98, 14, 170, 24, 190, 27,
   252, 86, 62, 75, 198, 210, 121, 32, 154, 219, 192, 254, 120, 205, 90, 244,
   31, 221, 168, 51, 136, 7, 199, 49, 177, 18, 16, 89, 39, 128, 236, 95,
   96, 81, 127, 169, 25, 181, 74, 13, 45, 229, 122, 159, 147, 201, 156, 239,
   160, 224, 59, 77, 174, 42, 245, 176, 200, 235, 187, 60, 131, 83, 153, 97,
   23, 43, 4, 126, 186, 119, 214, 38, 225, 105, 20, 99, 85, 33, 12, 125]

/-- The AES S-box as a function on bytes. -/
def sbox (x : Nat) : Nat := sboxTable.getD x 0

/-- The inverse AES S-box as a function on bytes. -/
def invSbox (y : Nat) : Nat := invSboxTable.getD y 0

/-- A 16-byte AES state / block, one field per byte (bytes in the order
they appear on the wire; AES reads them into the state column-major). -/
@[ext] structure B16 where
  b0 : Nat
  b1 : Nat
  b2 : Nat
  b3 : Nat
  b4 : Nat
  b5 : Nat
  b6 : Nat
  b7 : Nat
  b8 : Nat
  b9 : Nat
  b10 : Nat
  b11 : Nat
  b12 : Nat
  b13 : Nat
  b14 : Nat
  b15 : Nat
deriving DecidableEq, Repr

def B16.wf (s : B16) : Prop :=
  s.b0 < 256 ∧ s.b1 < 256 ∧ s.b2 < 256 ∧ s.b3 < 256 ∧
  s.b4 < 256 ∧ s.b5 < 256 ∧ s.b6 < 256 ∧ s.b7 < 256 ∧
  s.b8 < 256 ∧ s.b9 < 256 ∧ s.b10 < 256 ∧ s.b11 < 256 ∧
  s.b12 < 256 ∧ s.b13 < 256 ∧ s.b14 < 256 ∧ s.b15 < 256

instance (s : B16) : Decidable s.wf := by unfold B16.wf; infer_instance

def subBytes (s : B16) : B16 :=
  ⟨sbox s.b0, sbox s.b1, sbox s.b2, sbox s.b3, sbox s.b4, sbox s.b5,
   sbox s.b6, sbox s.b7, sbox s.b8, sbox s.b9, sbox s.b10, sbox s.b11,
   sbox s.b12, sbox s.b13, sbox s.b14, sbox s.b15⟩

def invSubBytes (s : B16) : B16 :=
  ⟨invSbox s.b0, invSbox s.b1, invSbox s.b2, invSbox s.b3, invSbox s.b4,
   invSbox s.b5, invSbox s.b6, invSbox s.b7, invSbox s.b8, invSbox s.b9,
   invSbox s.b10, invSbox s.b11, invSbox s.b12, invSbox s.b13,
   invSbox s.b14, invSbox s.b15⟩

/-- ShiftRows on the flat byte order (row `r` of the column-major state
rotates left by `r`). -/
def shiftRows (s : B16) : B16 :=
  ⟨s.b0, s.b5, s.b10, s.b15, s.b4, s.b9, s.b14, s.b3,
   s.b8, s.b13, s.b2, s.b7, s.b12, s.b1, s.b6, s.b11⟩

def invShiftRows (s : B16) : B16 :=
  ⟨s.b0, s.b13, s.b10, s.b7, s.b4, s.b1, s.b14, s.b11,
   s.b8, s.b5, s.b2, s.b15, s.b12, s.b9, s.b6, s.b3⟩

/-- One MixColumns column. -/
def mixCol (a b c d : Nat) : Nat × Nat × Nat × Nat :=
  (g2 a ^^^ g3 b ^^^ c ^^^ d,
   a ^^^ g2 b ^^^ g3 c ^^^ d,
   a ^^^ b ^^^ g2 c ^^^ g3 d,
   g3 a ^^^ b ^^^ c ^^^ g2 d)

/-- One InvMixColumns column. -/
def invMixCol (a b c d : Nat) : Nat × Nat × Nat × Nat :=
  (g14 a ^^^ g11 b ^^^ g13 c ^^^ g9 d,
   g9 a ^^^ g14 b ^^^ g11 c ^^^ g13 d,
   g13 a ^^^ g9 b ^^^ g14 c ^^^ g11 d,
   g11 a ^^^ g13 b ^^^ g9 c ^^^ g14 d)

def mixColumns (s : B16) : B16 :=
  let c0 := mixCol s.b0 s.b1 s.b2 s.b3
  let c1 := mixCol s.b4 s.b5 s.b6 s.b7
  let c2 := mixCol s.b8 s.b9 s.b10 s.b11
  let c3 := mixCol s.b12 s.b13 s.b14 s.b15
  ⟨c0.1, c0.2.1, c0.2.2.1, c0.2.2.2, c1.1, c1.2.1, c1.2.2.1, c1.2.2.2,
   c2.1, c2.2.1, c2.2.2.1, c2.2.2.2, c3.1, c3.2.1, c3.2.2.1, c3.2.2.2⟩

def invMixColumns (s : B16) : B16 :=
  let c0 := invMixCol s.b0 s.b1 s.b2 s.b3
  let c1 := invMixCol s.b4 s.b5 s.b6 s.b7
  let c2 := invMixCol s.b8 s.b9 s.b10 s.b11
  let c3 := invMixCol s.b12 s.b13 s.b14 s.b15
  ⟨c0.1, c0.2.1, c0.2.2.1, c0.2.2.2, c1.1, c1.2.1, c1.2.2.1, c1.2.2.2,
   c2.1, c2.2.1, c2.2.2.1, c2.2.2.2, c3.1, c3.2.1, c3.2.2.1, c3.2.2.2⟩

def addRoundKey (s k : B16) : B16 :=
  ⟨s.b0 ^^^ k.b0, s.b1 ^^^ k.b1, s.b2 ^^^ k.b2, s.b3 ^^^ k.b3,
   s.b4 ^^^ k.b4, s.b5 ^^^ k.b5, s.b6 ^^^ k.b6, s.b7 ^^^ k.b7,
   s.b8 ^^^ k.b8, s.b9 ^^^ k.b9, s.b10 ^^^ k.b10, s.b11 ^^^ k.b11,
   s.b12 ^^^ k.b12, s.b13 ^^^ k.b13, s.b14 ^^^ k.b14, s.b15 ^^^ k.b15⟩

/-- The AES-128 round constants. -/
def rcon (i : Nat) : Nat :=
  [1, 2, 4, 8, 16, 32, 64, 128, 27, 54].getD i 0

/-- One step of the AES-128 key schedule: round key `i+1` from round
key `i` (round constant `r`). -/
def nextKey (p : B16) (r : Nat) : B16 :=
  let t0 := (sbox p.b13 ^^^ r) % 256
  let t1 := sbox p.b14
  let t2 := sbox p.b15
  let t3 := sbox p.b12
  let w00 := p.b0 ^^^ t0
  let w01 := p.b1 ^^^ t1
  let w02 := p.b2 ^^^ t2
  let w03 := p.b3 ^^^ t3
  let w10 := p.b4 ^^^ w00
  let w11 := p.b5 ^^^ w01
  let w12 := p.b6 ^^^ w02
  let w13 := p.b7 ^^^ w03
  let w20 := p.b8 ^^^ w10
  let w21 := p.b9 ^^^ w11
  let w22 := p.b10 ^^^ w12
  let w23 := p.b11 ^^^ w13
  ⟨w00, w01, w02, w03, w10, w11, w12, w13, w20, w21, w22, w23,
   p.b12 ^^^ w20, p.b13 ^^^ w21, p.b14 ^^^ w22, p.b15 ^^^ w23⟩

/-- Round key `i` of the AES-128 key schedule. -/
def rk (key : B16) : Nat → B16
  | 0 => key
  | i + 1 => nextKey (rk key i) (rcon i)

/-- AES-128 block encryption. -/
def aesEncryptB (key b : B16) : B16 :=
  let s := addRoundKey b (rk key 0)
  let s := addRoundKey (mixColumns (shiftRows (subBytes s))) (rk key 1)
  let s := addRoundKey (mixColumns (shiftRows (subBytes s))) (rk key 2)
  let s := addRoundKey (mixColumns (shiftRows (subBytes s))) (rk key 3)
  let s := addRoundKey (mixColumns (shiftRows (subBytes s))) (rk key 4)
  let s := addRoundKey (mixColumns (shiftRows (subBytes s))) (rk key 5)
  let s := addRoundKey (mixColumns (shiftRows (subBytes s))) (rk key 6)
  let s := addRoundKey (mixColumns (shiftRows (subBytes s))) (rk key 7)
  let s := addRoundKey (mixColumns (shiftRows (subBytes s))) (rk key 8)
  let s := addRoundKey (mixColumns (shiftRows (subBytes s))) (rk key 9)
  addRoundKey (shiftRows (subBytes s)) (rk key 10)

/-- AES-128 block decryption. -/
def aesDecryptB (key c : B16) : B16 :=
  let s := invSubBytes (invShiftRows (addRoundKey c (rk key 10)))
  let s := invSubBytes (invShiftRows (invMixColumns (addRoundKey s (rk key 9))))
  let s := invSubBytes (invShiftRows (invMixColumns (addRoundKey s (rk key 8))))
  let s := invSubBytes (invShiftRows (invMixColumns (addRoundKey s (rk key 7))))
  let s := invSubBytes (invShiftRows (invMixColumns (addRoundKey s (rk key 6))))
  let s := invSubBytes (invShiftRows (invMixColumns (addRoundKey s (rk key 5))))
  let s := invSubBytes (invShiftRows (invMixColumns (addRoundKey s (rk key 4))))
  let s := invSubBytes (invShiftRows (invMixColumns (addRoundKey s (rk key 3))))
  let s := invSubBytes (invShiftRows (invMixColumns (addRoundKey s (rk key 2))))
  let s := invSubBytes (invShiftRows (invMixColumns (addRoundKey s (rk key 1))))
  addRoundKey s (rk key 0)

/-- Validation of the AES-128 implementation against the FIPS-197
Appendix C example vector. -/
theorem aes128_fips197_vector :
    aesEncryptB
      ⟨0x00, 0x01, 0x02, 0x03, 0x04, 0x05, 0x06, 0x07,
       0x08, 0x09, 0x0a, 0x0b, 0x0c, 0x0d, 0x0e, 0x0f⟩
      ⟨0x00, 0x11, 0x22, 0x33, 0x44, 0x55, 0x66, 0x77,
       0x88, 0x99, 0xaa, 0xbb, 0xcc, 0xdd, 0xee, 0xff⟩ =
      ⟨0x69, 0xc4, 0xe0, 0xd8, 0x6a, 0x7b, 0x04, 0x30,
       0xd8, 0xcd, 0xb7, 0x80, 0x70, 0xb4, 0xc5, 0x5a⟩ := by
  decide

/-! ### Inverse lemmas for the AES round operations -/

theorem xor_lt_256 {a b : Nat} (ha : a < 256) (hb : b < 256) : a ^^^ b < 256 := by
  have ha8 : a < 2 ^ 8 := by omega
  have hb8 : b < 2 ^ 8 := by omega
  have h := Nat.xor_lt_two_pow ha8 hb8
  omega

theorem xor4_lt {a b c d : Nat} (ha : a < 256) (hb : b < 256) (hc : c < 256)
    (hd : d < 256) : a ^^^ b ^^^ c ^^^ d < 256 :=
  xor_lt_256 (xor_lt_256 (xor_lt_256 ha hb) hc) hd

theorem g2_lt (x : Nat) : g2 x < 256 := Nat.mod_lt _ (by omega)

theorem g3_lt (x : Nat) : g3 x < 256 := Nat.mod_lt _ (by omega)

theorem g9_lt (x : Nat) : g9 x < 256 := Nat.mod_lt _ (by omega)

theorem g11_lt (x : Nat) : g11 x < 256 := Nat.mod_lt _ (by omega)

theorem g13_lt (x : Nat) : g13 x < 256 := Nat.mod_lt _ (by omega)

theorem g14_lt (x : Nat) : g14 x < 256 := Nat.mod_lt _ (by omega)

theorem sbox_lt_fin : ∀ x : Fin 256, sbox x.val < 256 := by decide

theorem sboxTable_length : sboxTable.length = 256 := by decide

theorem invSboxTable_length : invSboxTable.length = 256 := by decide

theorem sbox_lt (x : Nat) : sbox x < 256 := by
  by_cases h : x < 256
  · exact sbox_lt_fin ⟨x, h⟩
  · unfold sbox
    rw [List.getD_eq_default]
    · omega
    · rw [sboxTable_length]; omega

theorem invSbox_lt_fin : ∀ x : Fin 256, invSbox x.val < 256 := by decide

theorem invSbox_lt (x : Nat) : invSbox x < 256 := by
  by_cases h : x < 256
  · exact invSbox_lt_fin ⟨x, h⟩
  · unfold invSbox
    rw [List.getD_eq_default]
    · omega
    · rw [invSboxTable_length]; omega

theorem invSbox_sbox_fin : ∀ x : Fin 256, invSbox (sbox x.val) = x.val := by decide

theorem invSbox_sbox {x : Nat} (h : x < 256) : invSbox (sbox x) = x :=
  invSbox_sbox_fin ⟨x, h⟩

theorem xorInterchange (x1 x2 y1 y2 : Nat) :
    (x1 ^^^ y1) ^^^ (x2 ^^^ y2) = (x1 ^^^ x2) ^^^ (y1 ^^^ y2) := by ac_rfl

theorem xor_mod_two_pow (a b n : Nat) : (a ^^^ b) % 2 ^ n = a % 2 ^ n ^^^ b % 2 ^ n := by
  apply Nat.eq_of_testBit_eq
  intro i
  simp only [Nat.testBit_mod_two_pow, Nat.testBit_xor]
  cases h : decide (i < n) <;> simp

theorem xor_div_two_pow (a b k : Nat) : (a ^^^ b) / 2 ^ k = a / 2 ^ k ^^^ b / 2 ^ k := by
  rw [← Nat.shiftRight_eq_div_pow, ← Nat.shiftRight_eq_div_pow, ← Nat.shiftRight_eq_div_pow]
  apply Nat.eq_of_testBit_eq
  intro i
  simp [Nat.testBit_shiftRight, Nat.testBit_xor]

theorem two_mul_xor (a b : Nat) : 2 * (a ^^^ b) = 2 * a ^^^ 2 * b := by
  have h : ∀ x : Nat, 2 * x = x <<< 1 := by
    intro x
    rw [Nat.shiftLeft_eq]
    ring
  rw [h, h, h]
  apply Nat.eq_of_testBit_eq
  intro i
  simp only [Nat.testBit_shiftLeft, Nat.testBit_xor]
  cases hd : decide (1 ≤ i) <;> simp

/-- `g2` on a byte, written as low bits doubled xor the conditional
reduction constant. -/
theorem g2_eq {x : Nat} (hx : x < 256) : g2 x = 2 * (x % 128) ^^^ 27 * (x / 128) := by
  unfold g2
  rw [show (256:Nat) = 2 ^ 8 from by norm_num, xor_mod_two_pow]
  rw [show 2 * x % 2 ^ 8 = 2 * (x % 128) from by omega]
  rw [show (if 128 ≤ x then 27 else 0) % 2 ^ 8 = 27 * (x / 128) from by split <;> omega]

/-- Multiplication by `x` in GF(2⁸) is additive over xor. -/
theorem g2_xor {a b : Nat} (ha : a < 256) (hb : b < 256) :
    g2 (a ^^^ b) = g2 a ^^^ g2 b := by
  rw [g2_eq (xor_lt_256 ha hb), g2_eq ha, g2_eq hb]
  rw [show ((a ^^^ b) % 128 : Nat) = a % 128 ^^^ b % 128 from by
    rw [show (128:Nat) = 2 ^ 7 from by norm_num]; exact xor_mod_two_pow a b 7]
  rw [show ((a ^^^ b) / 128 : Nat) = a / 128 ^^^ b / 128 from by
    rw [show (128:Nat) = 2 ^ 7 from by norm_num]; exact xor_div_two_pow a b 7]
  rw [two_mul_xor]
  have h3 : 27 * (a / 128 ^^^ b / 128) = 27 * (a / 128) ^^^ 27 * (b / 128) := by
    have ha7 : a / 128 = 0 ∨ a / 128 = 1 := by omega
    have hb7 : b / 128 = 0 ∨ b / 128 = 1 := by omega
    rcases ha7 with h | h <;> rcases hb7 with h2 | h2 <;> rw [h, h2] <;> decide
  rw [h3]
  exact xorInterchange _ _ _ _

theorem g4_xor {a b : Nat} (ha : a < 256) (hb : b < 256) :
    g4 (a ^^^ b) = g4 a ^^^ g4 b := by
  unfold g4
  rw [g2_xor ha hb, g2_xor (g2_lt a) (g2_lt b)]

theorem g8_xor {a b : Nat} (ha : a < 256) (hb : b < 256) :
    g8 (a ^^^ b) = g8 a ^^^ g8 b := by
  unfold g8
  rw [g4_xor ha hb]
  exact g2_xor (by unfold g4; exact g2_lt _) (by unfold g4; exact g2_lt _)

theorem g4_lt (x : Nat) : g4 x < 256 := by unfold g4; exact g2_lt _

theorem g8_lt (x : Nat) : g8 x < 256 := by unfold g8; exact g2_lt _

theorem g3_xor {a b : Nat} (ha : a < 256) (hb : b < 256) :
    g3 (a ^^^ b) = g3 a ^^^ g3 b := by
  unfold g3
  rw [g2_xor ha hb,
    Nat.mod_eq_of_lt (xor_lt_256 (xor_lt_256 (g2_lt a) (g2_lt b)) (xor_lt_256 ha hb)),
    Nat.mod_eq_of_lt (xor_lt_256 (g2_lt a) ha),
    Nat.mod_eq_of_lt (xor_lt_256 (g2_lt b) hb)]
  exact xorInterchange _ _ _ _

theorem g9_xor {a b : Nat} (ha : a < 256) (hb : b < 256) :
    g9 (a ^^^ b) = g9 a ^^^ g9 b := by
  unfold g9
  rw [g8_xor ha hb,
    Nat.mod_eq_of_lt (xor_lt_256 (xor_lt_256 (g8_lt a) (g8_lt b)) (xor_lt_256 ha hb)),
    Nat.mod_eq_of_lt (xor_lt_256 (g8_lt a) ha),
    Nat.mod_eq_of_lt (xor_lt_256 (g8_lt b) hb)]
  exact xorInterchange _ _ _ _

theorem xorInterchange6 (x1 x2 x3 y1 y2 y3 : Nat) :
    (x1 ^^^ y1) ^^^ (x2 ^^^ y2) ^^^ (x3 ^^^ y3) =
      (x1 ^^^ x2 ^^^ x3) ^^^ (y1 ^^^ y2 ^^^ y3) := by ac_rfl

theorem mod256_eq {x : Nat} (h : x < 256) : x % 256 = x := Nat.mod_eq_of_lt h

theorem g11_xor {a b : Nat} (ha : a < 256) (hb : b < 256) :
    g11 (a ^^^ b) = g11 a ^^^ g11 b := by
  unfold g11
  rw [g8_xor ha hb, g2_xor ha hb,
    mod256_eq (xor_lt_256 (xor_lt_256 (xor_lt_256 (g8_lt a) (g8_lt b))
      (xor_lt_256 (g2_lt a) (g2_lt b))) (xor_lt_256 ha hb)),
    mod256_eq (xor_lt_256 (xor_lt_256 (g8_lt a) (g2_lt a)) ha),
    mod256_eq (xor_lt_256 (xor_lt_256 (g8_lt b) (g2_lt b)) hb)]
  exact xorInterchange6 _ _ _ _ _ _

theorem g13_xor {a b : Nat} (ha : a < 256) (hb : b < 256) :
    g13 (a ^^^ b) = g13 a ^^^ g13 b := by
  unfold g13
  rw [g8_xor ha hb, g4_xor ha hb,
    mod256_eq (xor_lt_256 (xor_lt_256 (xor_lt_256 (g8_lt a) (g8_lt b))
      (xor_lt_256 (g4_lt a) (g4_lt b))) (xor_lt_256 ha hb)),
    mod256_eq (xor_lt_256 (xor_lt_256 (g8_lt a) (g4_lt a)) ha),
    mod256_eq (xor_lt_256 (xor_lt_256 (g8_lt b) (g4_lt b)) hb)]
  exact xorInterchange6 _ _ _ _ _ _

theorem g14_xor {a b : Nat} (ha : a < 256) (hb : b < 256) :
    g14 (a ^^^ b) = g14 a ^^^ g14 b := by
  unfold g14
  rw [g8_xor ha hb, g4_xor ha hb, g2_xor ha hb,
    mod256_eq (xor_lt_256 (xor_lt_256 (xor_lt_256 (g8_lt a) (g8_lt b))
      (xor_lt_256 (g4_lt a) (g4_lt b))) (xor_lt_256 (g2_lt a) (g2_lt b))),
    mod256_eq (xor_lt_256 (xor_lt_256 (g8_lt a) (g4_lt a)) (g2_lt a)),
    mod256_eq (xor_lt_256 (xor_lt_256 (g8_lt b) (g4_lt b)) (g2_lt b))]
  exact xorInterchange6 _ _ _ _ _ _

/-! ### MixColumns inversion -/

/-- Componentwise xor on a MixColumns column. -/
def colXor : Nat × Nat × Nat × Nat → Nat × Nat × Nat × Nat → Nat × Nat × Nat × Nat
  | (a, b, c, d), (e, f, g, h) => (a ^^^ e, b ^^^ f, c ^^^ g, d ^^^ h)

/-- `invMixCol` as a function on a column 4-tuple. -/
def invMixColT : Nat × Nat × Nat × Nat → Nat × Nat × Nat × Nat
  | (a, b, c, d) => invMixCol a b c d

/-- The contribution of the first column byte to `mixCol`. -/
def colA (x : Nat) : Nat × Nat × Nat × Nat := (g2 x, x, x, g3 x)

def colB (x : Nat) : Nat × Nat × Nat × Nat := (g3 x, g2 x, x, x)

def colC (x : Nat) : Nat × Nat × Nat × Nat := (x, g3 x, g2 x, x)

def colD (x : Nat) : Nat × Nat × Nat × Nat := (x, x, g3 x, g2 x)

theorem mixCol_decomp (a b c d : Nat) :
    mixCol a b c d = colXor (colXor (colXor (colA a) (colB b)) (colC c)) (colD d) := rfl

theorem xorInterchange8 (x1 x2 x3 x4 y1 y2 y3 y4 : Nat) :
    (x1 ^^^ y1) ^^^ (x2 ^^^ y2) ^^^ (x3 ^^^ y3) ^^^ (x4 ^^^ y4) =
      (x1 ^^^ x2 ^^^ x3 ^^^ x4) ^^^ (y1 ^^^ y2 ^^^ y3 ^^^ y4) := by ac_rfl

theorem invMixColT_colXor {u1 u2 u3 u4 v1 v2 v3 v4 : Nat}
    (hu1 : u1 < 256) (hu2 : u2 < 256) (hu3 : u3 < 256) (hu4 : u4 < 256)
    (hv1 : v1 < 256) (hv2 : v2 < 256) (hv3 : v3 < 256) (hv4 : v4 < 256) :
    invMixColT (colXor (u1, u2, u3, u4) (v1, v2, v3, v4)) =
      colXor (invMixColT (u1, u2, u3, u4)) (invMixColT (v1, v2, v3, v4)) := by
  show invMixCol (u1 ^^^ v1) (u2 ^^^ v2) (u3 ^^^ v3) (u4 ^^^ v4) = _
  unfold invMixCol
  rw [g14_xor hu1 hv1, g11_xor hu2 hv2, g13_xor hu3 hv3, g9_xor hu4 hv4,
    g9_xor hu1 hv1, g14_xor hu2 hv2, g11_xor hu3 hv3, g13_xor hu4 hv4,
    g13_xor hu1 hv1, g9_xor hu2 hv2, g14_xor hu3 hv3, g11_xor hu4 hv4,
    g11_xor hu1 hv1, g13_xor hu2 hv2, g9_xor hu3 hv3, g14_xor hu4 hv4]
  show _ = (_ ^^^ _, _ ^^^ _, _ ^^^ _, _ ^^^ _)
  refine Prod.ext (xorInterchange8 _ _ _ _ _ _ _ _) (Prod.ext (xorInterchange8 _ _ _ _ _ _ _ _)
    (Prod.ext (xorInterchange8 _ _ _ _ _ _ _ _) (xorInterchange8 _ _ _ _ _ _ _ _)))

theorem invA_fin : ∀ x : Fin 256, invMixColT (colA x.val) = (x.val, 0, 0, 0) := by decide

theorem invB_fin : ∀ x : Fin 256, invMixColT (colB x.val) = (0, x.val, 0, 0) := by decide

theorem invC_fin : ∀ x : Fin 256, invMixColT (colC x.val) = (0, 0, x.val, 0) := by decide

theorem invD_fin : ∀ x : Fin 256, invMixColT (colD x.val) = (0, 0, 0, x.val) := by decide

theorem invMixColT_mixCol {a b c d : Nat}
    (ha : a < 256) (hb : b < 256) (hc : c < 256) (hd : d < 256) :
    invMixColT (mixCol a b c d) = (a, b, c, d) := by
  rw [mixCol_decomp]
  rw [show colXor (colA a) (colB b) =
      colXor (g2 a, a, a, g3 a) (g3 b, g2 b, b, b) from rfl]
  rw [show colXor (colXor (g2 a, a, a, g3 a) (g3 b, g2 b, b, b)) (colC c) =
      colXor (g2 a ^^^ g3 b, a ^^^ g2 b, a ^^^ b, g3 a ^^^ b) (c, g3 c, g2 c, c) from rfl]
  rw [show colXor (colXor (g2 a ^^^ g3 b, a ^^^ g2 b, a ^^^ b, g3 a ^^^ b) (c, g3 c, g2 c, c)) (colD d) =
      colXor ((g2 a ^^^ g3 b) ^^^ c, (a ^^^ g2 b) ^^^ g3 c, (a ^^^ b) ^^^ g2 c, (g3 a ^^^ b) ^^^ c) (d, d, g3 d, g2 d) from rfl]
  rw [invMixColT_colXor
    (xor_lt_256 (xor_lt_256 (g2_lt a) (g3_lt b)) hc)
    (xor_lt_256 (xor_lt_256 ha (g2_lt b)) (g3_lt c))
    (xor_lt_256 (xor_lt_256 ha hb) (g2_lt c))
    (xor_lt_256 (xor_lt_256 (g3_lt a) hb) hc)
    hd hd (g3_lt d) (g2_lt d)]
  rw [show ((g2 a ^^^ g3 b) ^^^ c, (a ^^^ g2 b) ^^^ g3 c, (a ^^^ b) ^^^ g2 c, (g3 a ^^^ b) ^^^ c) =
      colXor (g2 a ^^^ g3 b, a ^^^ g2 b, a ^^^ b, g3 a ^^^ b) (c, g3 c, g2 c, c) from rfl]
  rw [invMixColT_colXor
    (xor_lt_256 (g2_lt a) (g3_lt b)) (xor_lt_256 ha (g2_lt b))
    (xor_lt_256 ha hb) (xor_lt_256 (g3_lt a) hb)
    hc (g3_lt c) (g2_lt c) hc]
  rw [show (g2 a ^^^ g3 b, a ^^^ g2 b, a ^^^ b, g3 a ^^^ b) =
      colXor (g2 a, a, a, g3 a) (g3 b, g2 b, b, b) from rfl]
  rw [invMixColT_colXor (g2_lt a) ha ha (g3_lt a) (g3_lt b) (g2_lt b) hb hb]
  rw [show ((g2 a, a, a, g3 a) : Nat × Nat × Nat × Nat) = colA a from rfl,
    show ((g3 b, g2 b, b, b) : Nat × Nat × Nat × Nat) = colB b from rfl,
    show ((c, g3 c, g2 c, c) : Nat × Nat × Nat × Nat) = colC c from rfl,
    show ((d, d, g3 d, g2 d) : Nat × Nat × Nat × Nat) = colD d from rfl]
  rw [invA_fin ⟨a, ha⟩, invB_fin ⟨b, hb⟩, invC_fin ⟨c, hc⟩, invD_fin ⟨d, hd⟩]
  show (((a ^^^ 0) ^^^ 0) ^^^ 0, ((0 ^^^ b) ^^^ 0) ^^^ 0,
    ((0 ^^^ 0) ^^^ c) ^^^ 0, ((0 ^^^ 0) ^^^ 0) ^^^ d) = (a, b, c, d)
  simp

/-! ### Block-level inversion and well-formedness -/

theorem wf_subBytes (s : B16) : (subBytes s).wf :=
  ⟨sbox_lt _, sbox_lt _, sbox_lt _, sbox_lt _, sbox_lt _, sbox_lt _, sbox_lt _,
   sbox_lt _, sbox_lt _, sbox_lt _, sbox_lt _, sbox_lt _, sbox_lt _, sbox_lt _,
   sbox_lt _, sbox_lt _⟩

theorem wf_shiftRows {s : B16} (h : s.wf) : (shiftRows s).wf := by
  obtain ⟨h0, h1, h2, h3, h4, h5, h6, h7, h8, h9, h10, h11, h12, h13, h14, h15⟩ := h
  exact ⟨h0, h5, h10, h15, h4, h9, h14, h3, h8, h13, h2, h7, h12, h1, h6, h11⟩

theorem wf_mixColumns {s : B16} (h : s.wf) : (mixColumns s).wf := by
  obtain ⟨h0, h1, h2, h3, h4, h5, h6, h7, h8, h9, h10, h11, h12, h13, h14, h15⟩ := h
  refine ⟨?_, ?_, ?_, ?_, ?_, ?_, ?_, ?_, ?_, ?_, ?_, ?_, ?_, ?_, ?_, ?_⟩
  · exact xor4_lt (g2_lt _) (g3_lt _) h2 h3
  · exact xor4_lt h0 (g2_lt _) (g3_lt _) h3
  · exact xor4_lt h0 h1 (g2_lt _) (g3_lt _)
  · exact xor4_lt (g3_lt _) h1 h2 (g2_lt _)
  · exact xor4_lt (g2_lt _) (g3_lt _) h6 h7
  · exact xor4_lt h4 (g2_lt _) (g3_lt _) h7
  · exact xor4_lt h4 h5 (g2_lt _) (g3_lt _)
  · exact xor4_lt (g3_lt _) h5 h6 (g2_lt _)
  · exact xor4_lt (g2_lt _) (g3_lt _) h10 h11
  · exact xor4_lt h8 (g2_lt _) (g3_lt _) h11
  · exact xor4_lt h8 h9 (g2_lt _) (g3_lt _)
  · exact xor4_lt (g3_lt _) h9 h10 (g2_lt _)
  · exact xor4_lt (g2_lt _) (g3_lt _) h14 h15
  · exact xor4_lt h12 (g2_lt _) (g3_lt _) h15
  · exact xor4_lt h12 h13 (g2_lt _) (g3_lt _)
  · exact xor4_lt (g3_lt _) h13 h14 (g2_lt _)

theorem wf_addRoundKey {s k : B16} (hs : s.wf) (hk : k.wf) : (addRoundKey s k).wf := by
  obtain ⟨h0, h1, h2, h3, h4, h5, h6, h7, h8, h9, h10, h11, h12, h13, h14, h15⟩ := hs
  obtain ⟨g0, g1, g2, g3, g4, g5, g6, g7, g8, g9, g10, g11, g12, g13, g14, g15⟩ := hk
  exact ⟨xor_lt_256 h0 g0, xor_lt_256 h1 g1, xor_lt_256 h2 g2, xor_lt_256 h3 g3,
    xor_lt_256 h4 g4, xor_lt_256 h5 g5, xor_lt_256 h6 g6, xor_lt_256 h7 g7,
    xor_lt_256 h8 g8, xor_lt_256 h9 g9, xor_lt_256 h10 g10, xor_lt_256 h11 g11,
    xor_lt_256 h12 g12, xor_lt_256 h13 g13, xor_lt_256 h14 g14, xor_lt_256 h15 g15⟩

theorem wf_nextKey {p : B16} (hp : p.wf) (r : Nat) : (nextKey p r).wf := by
  obtain ⟨h0, h1, h2, h3, h4, h5, h6, h7, h8, h9, h10, h11, h12, h13, h14, h15⟩ := hp
  have t0 : (sbox p.b13 ^^^ r) % 256 < 256 := Nat.mod_lt _ (by omega)
  have w00 := xor_lt_256 h0 t0
  have w01 := xor_lt_256 h1 (sbox_lt p.b14)
  have w02 := xor_lt_256 h2 (sbox_lt p.b15)
  have w03 := xor_lt_256 h3 (sbox_lt p.b12)
  have w10 := xor_lt_256 h4 w00
  have w11 := xor_lt_256 h5 w01
  have w12 := xor_lt_256 h6 w02
  have w13 := xor_lt_256 h7 w03
  have w20 := xor_lt_256 h8 w10
  have w21 := xor_lt_256 h9 w11
  have w22 := xor_lt_256 h10 w12
  have w23 := xor_lt_256 h11 w13
  exact ⟨w00, w01, w02, w03, w10, w11, w12, w13, w20, w21, w22, w23,
    xor_lt_256 h12 w20, xor_lt_256 h13 w21, xor_lt_256 h14 w22, xor_lt_256 h15 w23⟩

theorem wf_rk {key : B16} (hk : key.wf) : ∀ i, (rk key i).wf
  | 0 => hk
  | i + 1 => wf_nextKey (wf_rk hk i) (rcon i)

theorem addRoundKey_cancel (s k : B16) : addRoundKey (addRoundKey s k) k = s := by
  ext <;> exact Nat.xor_cancel_right _ _

theorem invShiftRows_shiftRows (s : B16) : invShiftRows (shiftRows s) = s := rfl

theorem invSubBytes_subBytes {s : B16} (h : s.wf) : invSubBytes (subBytes s) = s := by
  obtain ⟨h0, h1, h2, h3, h4, h5, h6, h7, h8, h9, h10, h11, h12, h13, h14, h15⟩ := h
  ext
  · exact invSbox_sbox h0
  · exact invSbox_sbox h1
  · exact invSbox_sbox h2
  · exact invSbox_sbox h3
  · exact invSbox_sbox h4
  · exact invSbox_sbox h5
  · exact invSbox_sbox h6
  · exact invSbox_sbox h7
  · exact invSbox_sbox h8
  · exact invSbox_sbox h9
  · exact invSbox_sbox h10
  · exact invSbox_sbox h11
  · exact invSbox_sbox h12
  · exact invSbox_sbox h13
  · exact invSbox_sbox h14
  · exact invSbox_sbox h15

theorem invMixColumns_mixColumns {s : B16} (h : s.wf) :
    invMixColumns (mixColumns s) = s := by
  obtain ⟨h0, h1, h2, h3, h4, h5, h6, h7, h8, h9, h10, h11, h12, h13, h14, h15⟩ := h
  have e0 := invMixColT_mixCol h0 h1 h2 h3
  have e1 := invMixColT_mixCol h4 h5 h6 h7
  have e2 := invMixColT_mixCol h8 h9 h10 h11
  have e3 := invMixColT_mixCol h12 h13 h14 h15
  show B16.mk
    (invMixColT (mixCol s.b0 s.b1 s.b2 s.b3)).1
    (invMixColT (mixCol s.b0 s.b1 s.b2 s.b3)).2.1
    (invMixColT (mixCol s.b0 s.b1 s.b2 s.b3)).2.2.1
    (invMixColT (mixCol s.b0 s.b1 s.b2 s.b3)).2.2.2
    (invMixColT (mixCol s.b4 s.b5 s.b6 s.b7)).1
    (invMixColT (mixCol s.b4 s.b5 s.b6 s.b7)).2.1
    (invMixColT (mixCol s.b4 s.b5 s.b6 s.b7)).2.2.1
    (invMixColT (mixCol s.b4 s.b5 s.b6 s.b7)).2.2.2
    (invMixColT (mixCol s.b8 s.b9 s.b10 s.b11)).1
    (invMixColT (mixCol s.b8 s.b9 s.b10 s.b11)).2.1
    (invMixColT (mixCol s.b8 s.b9 s.b10 s.b11)).2.2.1
    (invMixColT (mixCol s.b8 s.b9 s.b10 s.b11)).2.2.2
    (invMixColT (mixCol s.b12 s.b13 s.b14 s.b15)).1
    (invMixColT (mixCol s.b12 s.b13 s.b14 s.b15)).2.1
    (invMixColT (mixCol s.b12 s.b13 s.b14 s.b15)).2.2.1
    (invMixColT (mixCol s.b12 s.b13 s.b14 s.b15)).2.2.2 = s
  rw [e0, e1, e2, e3]

theorem stepDE (k : B16) {s : B16} (hs : s.wf) :
    invSubBytes (invShiftRows (invMixColumns (addRoundKey
      (addRoundKey (mixColumns (shiftRows (subBytes s))) k) k))) = s := by
  rw [addRoundKey_cancel, invMixColumns_mixColumns (wf_shiftRows (wf_subBytes s)),
    invShiftRows_shiftRows, invSubBytes_subBytes hs]

theorem finalDE (k : B16) {s : B16} (hs : s.wf) :
    invSubBytes (invShiftRows (addRoundKey (addRoundKey (shiftRows (subBytes s)) k) k)) = s := by
  rw [addRoundKey_cancel, invShiftRows_shiftRows, invSubBytes_subBytes hs]

/-- AES-128 decryption inverts encryption. -/
theorem aesDecryptB_aesEncryptB {key b : B16} (hk : key.wf) (hb : b.wf) :
    aesDecryptB key (aesEncryptB key b) = b := by
  have w0 : (addRoundKey b (rk key 0)).wf := wf_addRoundKey hb (wf_rk hk 0)
  simp only [aesEncryptB, aesDecryptB]
  rw [finalDE (rk key 10)
      (wf_addRoundKey (wf_mixColumns (wf_shiftRows (wf_subBytes _))) (wf_rk hk 9)),
    stepDE (rk key 9)
      (wf_addRoundKey (wf_mixColumns (wf_shiftRows (wf_subBytes _))) (wf_rk hk 8)),
    stepDE (rk key 8)
      (wf_addRoundKey (wf_mixColumns (wf_shiftRows (wf_subBytes _))) (wf_rk hk 7)),
    stepDE (rk key 7)
      (wf_addRoundKey (wf_mixColumns (wf_shiftRows (wf_subBytes _))) (wf_rk hk 6)),
    stepDE (rk key 6)
      (wf_addRoundKey (wf_mixColumns (wf_shiftRows (wf_subBytes _))) (wf_rk hk 5)),
    stepDE (rk key 5)
      (wf_addRoundKey (wf_mixColumns (wf_shiftRows (wf_subBytes _))) (wf_rk hk 4)),
    stepDE (rk key 4)
      (wf_addRoundKey (wf_mixColumns (wf_shiftRows (wf_subBytes _))) (wf_rk hk 3)),
    stepDE (rk key 3)
      (wf_addRoundKey (wf_mixColumns (wf_shiftRows (wf_subBytes _))) (wf_rk hk 2)),
    stepDE (rk key 2)
      (wf_addRoundKey (wf_mixColumns (wf_shiftRows (wf_subBytes _))) (wf_rk hk 1)),
    stepDE (rk key 1) w0,
    addRoundKey_cancel]

/-- For a fixed well-formed key, AES-128 encryption is injective on
well-formed blocks. -/
theorem aesEncryptB_inj {key b1 b2 : B16} (hk : key.wf) (h1 : b1.wf) (h2 : b2.wf)
    (he : aesEncryptB key b1 = aesEncryptB key b2) : b1 = b2 := by
  have e1 := aesDecryptB_aesEncryptB hk h1
  have e2 := aesDecryptB_aesEncryptB hk h2
  rw [← e1, ← e2, he]

/-! ### CTR mode (`aes_ctr_encrypt` / `aes_ctr_decrypt`)

`cryptography`'s `modes.CTR(nonce)` treats the 16-byte nonce as a
big-endian 128-bit counter, incremented per block; each block of the
keystream is the AES encryption of the counter. -/

/-- Read 16 bytes into an AES block (bytes in wire order). -/
def listToB16 (l : List Nat) : B16 :=
  match l with
  | [a0, a1, a2, a3, a4, a5, a6, a7, a8, a9, a10, a11, a12, a13, a14, a15] =>
    ⟨a0, a1, a2, a3, a4, a5, a6, a7, a8, a9, a10, a11, a12, a13, a14, a15⟩
  | _ => ⟨0, 0, 0, 0, 0, 0, 0, 0, 0, 0, 0, 0, 0, 0, 0, 0⟩

def b16ToList (s : B16) : List Nat :=
  [s.b0, s.b1, s.b2, s.b3, s.b4, s.b5, s.b6, s.b7,
   s.b8, s.b9, s.b10, s.b11, s.b12, s.b13, s.b14, s.b15]

/-- `n` keystream blocks starting at counter value `c`. -/
def ksFrom (key : B16) : Nat → Nat → List Nat
  | _, 0 => []
  | c, n + 1 =>
    b16ToList (aesEncryptB key (listToB16 (natToBytes 16 c))) ++ ksFrom key (c + 1) n

/-- The first `len` CTR keystream bytes for a 16-byte big-endian
`nonce` (counter initial value). -/
def keystream (key nonce : List Nat) (len : Nat) : List Nat :=
  (ksFrom (listToB16 key) (bytesToNat nonce) ((len + 15) / 16)).take len

/-- `MqttProtocol.aes_ctr_encrypt`: AES-CTR encryption of `plaintext`
with `key` and counter IV `nonce` (both byte strings). -/
def aes_ctr_encrypt (key nonce plaintext : List Nat) : List Nat :=
  List.zipWith Nat.xor plaintext (keystream key nonce plaintext.length)

/-- `MqttProtocol.aes_ctr_decrypt`: identical CTR keystream xor, applied
to the ciphertext. -/
def aes_ctr_decrypt (key nonce ciphertext : List Nat) : List Nat :=
  List.zipWith Nat.xor ciphertext (keystream key nonce ciphertext.length)

theorem ksFrom_length (key : B16) : ∀ c n, (ksFrom key c n).length = 16 * n
  | _, 0 => rfl
  | c, n + 1 => by
    show (b16ToList _ ++ ksFrom key (c + 1) n).length = _
    rw [List.length_append, ksFrom_length key (c + 1) n]
    simp [b16ToList]
    omega

theorem keystream_length (key nonce : List Nat) (len : Nat) :
    (keystream key nonce len).length = len := by
  unfold keystream
  rw [List.length_take, ksFrom_length]
  omega

theorem zipWith_xor_cancel :
    ∀ p ks : List Nat, p.length ≤ ks.length →
      List.zipWith Nat.xor (List.zipWith Nat.xor p ks) ks = p
  | [], _, _ => by simp
  | _ :: _, [], h => by simp at h
  | a :: p, k :: ks, h => by
    show ((a ^^^ k) ^^^ k) :: List.zipWith Nat.xor (List.zipWith Nat.xor p ks) ks = a :: p
    rw [Nat.xor_cancel_right, zipWith_xor_cancel p ks (by simpa using h)]

/-- CTR decryption inverts CTR encryption, for any key and nonce. -/
theorem aes_ctr_decrypt_encrypt (key nonce p : List Nat) :
    aes_ctr_decrypt key nonce (aes_ctr_encrypt key nonce p) = p := by
  unfold aes_ctr_decrypt aes_ctr_encrypt
  have hlen : (List.zipWith Nat.xor p (keystream key nonce p.length)).length = p.length := by
    rw [List.length_zipWith, keystream_length]
    omega
  rw [hlen]
  exact zipWith_xor_cancel p _ (by rw [keystream_length])

/-! ### Distinct counter IVs give distinct keystream blocks -/

theorem b16ToList_listToB16 (l : List Nat) (h : l.length = 16) :
    b16ToList (listToB16 l) = l := by
  rcases l with _|⟨a0,_|⟨a1,_|⟨a2,_|⟨a3,r⟩⟩⟩⟩ <;>
    try (exfalso; simp only [List.length_cons, List.length_nil] at h; omega)
  rcases r with _|⟨a4,_|⟨a5,_|⟨a6,_|⟨a7,r⟩⟩⟩⟩ <;>
    try (exfalso; simp only [List.length_cons, List.length_nil] at h; omega)
  rcases r with _|⟨a8,_|⟨a9,_|⟨a10,_|⟨a11,r⟩⟩⟩⟩ <;>
    try (exfalso; simp only [List.length_cons, List.length_nil] at h; omega)
  rcases r with _|⟨a12,_|⟨a13,_|⟨a14,_|⟨a15,r⟩⟩⟩⟩ <;>
    try (exfalso; simp only [List.length_cons, List.length_nil] at h; omega)
  rcases r with _|⟨a16,r⟩
  · rfl
  · exfalso
    simp only [List.length_cons, List.length_nil] at h
    omega

theorem wf_defaultB16 : (B16.mk 0 0 0 0 0 0 0 0 0 0 0 0 0 0 0 0).wf := by decide

theorem listToB16_wf (l : List Nat) (h : ∀ b ∈ l, b < 256) : (listToB16 l).wf := by
  rcases l with _|⟨a0,_|⟨a1,_|⟨a2,_|⟨a3,r⟩⟩⟩⟩ <;> try exact wf_defaultB16
  rcases r with _|⟨a4,_|⟨a5,_|⟨a6,_|⟨a7,r⟩⟩⟩⟩ <;> try exact wf_defaultB16
  rcases r with _|⟨a8,_|⟨a9,_|⟨a10,_|⟨a11,r⟩⟩⟩⟩ <;> try exact wf_defaultB16
  rcases r with _|⟨a12,_|⟨a13,_|⟨a14,_|⟨a15,r⟩⟩⟩⟩ <;> try exact wf_defaultB16
  rcases r with _|⟨a16,r⟩
  · show (B16.mk a0 a1 a2 a3 a4 a5 a6 a7 a8 a9 a10 a11 a12 a13 a14 a15).wf
    exact ⟨h a0 (by simp), h a1 (by simp), h a2 (by simp), h a3 (by simp),
      h a4 (by simp), h a5 (by simp), h a6 (by simp), h a7 (by simp),
      h a8 (by simp), h a9 (by simp), h a10 (by simp), h a11 (by simp),
      h a12 (by simp), h a13 (by simp), h a14 (by simp), h a15 (by simp)⟩
  · exact wf_defaultB16

theorem b16ToList_inj {s1 s2 : B16} (h : b16ToList s1 = b16ToList s2) : s1 = s2 := by
  simp [b16ToList] at h
  ext <;> tauto

theorem natToBytes_all_lt (len n : Nat) : ∀ b ∈ natToBytes len n, b < 256 := by
  induction len generalizing n with
  | zero => simp [natToBytes]
  | succ len ih =>
    intro b hb
    simp only [natToBytes, List.mem_append, List.mem_singleton] at hb
    rcases hb with hb | hb
    · exact ih (n / 256) b hb
    · omega

theorem bytesToNat_natToBytes (len n : Nat) (h : n < 256 ^ len) :
    bytesToNat (natToBytes len n) = n := by
  induction len generalizing n with
  | zero => simp at h; simp [natToBytes, bytesToNat, h]
  | succ len ih =>
    show bytesToNat (natToBytes len (n / 256) ++ [n % 256]) = n
    rw [bytesToNat_snoc, ih (n / 256) (by rw [pow_succ] at h; omega)]
    omega

theorem keystream_first16 (key nonce : List Nat) (len : Nat) (h : 16 ≤ len) :
    (keystream key nonce len).take 16 =
      b16ToList (aesEncryptB (listToB16 key)
        (listToB16 (natToBytes 16 (bytesToNat nonce)))) := by
  unfold keystream
  obtain ⟨m, hm⟩ : ∃ m, (len + 15) / 16 = m + 1 :=
    ⟨(len + 15) / 16 - 1, by omega⟩
  rw [hm, List.take_take, show min 16 len = 16 by omega]
  show ((b16ToList _ ++ ksFrom _ _ m).take 16) = _
  have hlen : (b16ToList (aesEncryptB (listToB16 key)
      (listToB16 (natToBytes 16 (bytesToNat nonce))))).length = 16 := rfl
  exact List.take_left' hlen

theorem zipWith_xor_left_cancel :
    ∀ p a b : List Nat, a.length ≤ p.length → a.length = b.length →
      List.zipWith Nat.xor p a = List.zipWith Nat.xor p b → a = b
  | _, [], [], _, _, _ => rfl
  | [], a :: _, _, hp, _, _ => by simp at hp
  | _ :: _, _ :: _, [], _, hl, _ => by simp at hl
  | x :: p, a :: as, b :: bs, hp, hl, he => by
    simp only [List.zipWith, List.cons.injEq] at he
    obtain ⟨h1, h2⟩ := he
    have h1x : x ^^^ a = x ^^^ b := h1
    have ha : a = b := by
      have hx : x ^^^ (x ^^^ a) = x ^^^ (x ^^^ b) := congrArg (fun z => x ^^^ z) h1x
      rwa [← Nat.xor_assoc, ← Nat.xor_assoc, Nat.xor_self, Nat.zero_xor,
        Nat.zero_xor] at hx
    rw [ha, zipWith_xor_left_cancel p as bs (by simpa using hp) (by simpa using hl) h2]

/-- If CTR encryption of the same plaintext (at least one block long)
under the same key and two 16-byte nonces gives the same ciphertext,
the nonces must be equal. -/
theorem ctr_ct_eq_imp_nonce_eq {key n1 n2 p : List Nat}
    (hkl : key.length = 16) (hkb : ∀ b ∈ key, b < 256)
    (h1l : n1.length = 16) (h1b : ∀ b ∈ n1, b < 256)
    (h2l : n2.length = 16) (h2b : ∀ b ∈ n2, b < 256)
    (hp : 16 ≤ p.length)
    (he : aes_ctr_encrypt key n1 p = aes_ctr_encrypt key n2 p) : n1 = n2 := by
  have ht := congrArg (List.take 16) he
  unfold aes_ctr_encrypt at ht
  rw [List.take_zipWith, List.take_zipWith] at ht
  have hks : (keystream key n1 p.length).take 16 = (keystream key n2 p.length).take 16 := by
    refine zipWith_xor_left_cancel (p.take 16) _ _ ?_ ?_ ht
    · simp [List.length_take, keystream_length]
    · simp [List.length_take, keystream_length]
  rw [keystream_first16 key n1 p.length hp, keystream_first16 key n2 p.length hp] at hks
  have hblk := b16ToList_inj hks
  have hinj := aesEncryptB_inj (listToB16_wf key hkb)
    (listToB16_wf _ (natToBytes_all_lt 16 _)) (listToB16_wf _ (natToBytes_all_lt 16 _)) hblk
  have hl1 := congrArg b16ToList hinj
  rw [b16ToList_listToB16 _ (natToBytes_length 16 _),
    b16ToList_listToB16 _ (natToBytes_length 16 _)] at hl1
  have hv := congrArg bytesToNat hl1
  rw [bytesToNat_natToBytes 16 _ (by have := bytesToNat_lt n1 h1b; rw [h1l] at this; exact this),
    bytesToNat_natToBytes 16 _ (by have := bytesToNat_lt n2 h2b; rw [h2l] at this; exact this)] at hv
  have := congrArg (natToBytes 16) hv
  calc n1 = natToBytes 16 (bytesToNat n1) := by
        rw [← h1l, natToBytes_bytesToNat n1 h1b]
    _ = natToBytes 16 (bytesToNat n2) := by rw [hv]
    _ = n2 := by rw [← h2l, natToBytes_bytesToNat n2 h2b]

/-! ### The broker (MQTT/UDP) transport

`MqttProtocol` state relevant to the claims: the AES key and nonce
template are stored as hex strings received in the server hello
(`udp.key` / `udp.nonce`), the sequence counters as integers and the
session id as a Python string-or-None. -/

namespace MqttProtocol

structure State where
  aesKeyHex : Option (List Nat)
  aesNonceHex : Option (List Nat)
  localSequence : Nat
  remoteSequence : Nat
  sessionId : Option String

/-- The `hello` branch of `_handle_mqtt_message`: store session id and
UDP crypto parameters, reset both sequence counters to zero. -/
def handleHello (st : State) (sid : String) (keyHex nonceHex : List Nat) : State :=
  { st with
    sessionId := some sid
    aesKeyHex := some keyHex
    aesNonceHex := some nonceHex
    localSequence := 0
    remoteSequence := 0 }

/-- `MqttProtocol.send_audio`.

Mirrors the Python code line by line: the local sequence counter is
first incremented (masked to 32 bits), the packet nonce is assembled as
`aes_nonce[:4] + format(len(audio_data), "04x") + aes_nonce[8:24] +
format(local_sequence, "08x")`, both hex strings go through
`bytes.fromhex`, the payload is AES-CTR encrypted, the wire packet is
the nonce bytes followed by the ciphertext, and after a successful send
the counter is incremented a second time (unmasked).  Any failure
(`bytes.fromhex` on an odd-length string, a CTR nonce that is not
16 bytes, a key that is not an AES-128 key) is caught by the
`except` block and the call returns no packet — but the first counter
increment has already happened.  Returns the new state and the packet
sent, if any. -/
def send_audio (st : State) (audio : List Nat) : State × Option (List Nat) :=
  let seq1 := (st.localSequence + 1) % 4294967296
  let st1 := { st with localSequence := seq1 }
  match st.aesKeyHex, st.aesNonceHex with
  | some keyHex, some nonceT =>
    let nonceHex := nonceT.take 4 ++ pyHex 4 audio.length ++
      (nonceT.drop 8).take 16 ++ pyHex 8 seq1
    match pyFromHex keyHex, pyFromHex nonceHex with
    | some keyB, some nonceB =>
      if keyB.length = 16 ∧ nonceB.length = 16 then
        ({ st1 with localSequence := seq1 + 1 },
          some (nonceB ++ aes_ctr_encrypt keyB nonceB audio))
      else (st1, none)
    | _, _ => (st1, none)
  | _, _ => (st1, none)

/-- One packet of `_udp_receive_thread`: datagrams shorter than the
16-byte nonce are dropped (`continue`), otherwise the first 16 bytes
are the nonce and the rest is AES-CTR decrypted; the decrypted payload
is handed to the incoming-audio callback.  A decryption error is also
caught and dropped.  Returns the payload passed to the callback, if
any. -/
def processPacket (keyHex : List Nat) (data : List Nat) : Option (List Nat) :=
  if data.length < 16 then none
  else
    match pyFromHex keyHex with
    | some keyB =>
      if keyB.length = 16 then
        some (aes_ctr_decrypt keyB (data.take 16) (data.drop 16))
      else none
    | none => none

/-- The receive loop over a sequence of datagrams: each is processed
independently; dropped packets do not stop the loop.  Returns the list
of payloads delivered to the incoming-audio callback, in order. -/
def receiveLoop (keyHex : List Nat) (datagrams : List (List Nat)) : List (List Nat) :=
  datagrams.filterMap (processPacket keyHex)

end MqttProtocol

/-- Events emitted while closing a transport's audio channel
(`cleanupConnection` is the websocket transport's task-cancel and
socket-close step). -/
inductive CloseEvent
  | sendGoodbye (sid : String)
  | stopUdpReceiver
  | closeUdpSocket
  | disconnectMqtt
  | cleanupConnection
  | channelClosedCallback
deriving DecidableEq, Repr

namespace MqttProtocol

/-- `MqttProtocol.close_audio_channel`: sends a session-scoped goodbye
message when a (truthy) session id is set, then `_handle_goodbye` stops
the UDP receiver, closes the socket, disconnects MQTT, resets all
session state (including `session_id`, the sequence counters and the
AES parameters) and invokes the channel-closed callback. -/
def close_audio_channel (st : State) : State × List CloseEvent :=
  let goodbye :=
    match st.sessionId with
    | some sid => if sid ≠ "" then [CloseEvent.sendGoodbye sid] else []
    | none => []
  let st2 : State :=
    { aesKeyHex := none, aesNonceHex := none, localSequence := 0,
      remoteSequence := 0, sessionId := none }
  (st2, goodbye ++ [CloseEvent.stopUdpReceiver, CloseEvent.closeUdpSocket,
    CloseEvent.disconnectMqtt, CloseEvent.channelClosedCallback])

end MqttProtocol

/-! ### The socket (websocket) transport -/

namespace WebsocketProtocol

structure State where
  sessionId : Option String
  connected : Bool

/-- `WebsocketProtocol.close_audio_channel`: `_cleanup_connection`
(cancel the message/heartbeat/monitor tasks and close the websocket)
followed by the channel-closed callback.  No goodbye message is sent
and `session_id` is not touched (the class never assigns it at all). -/
def close_audio_channel (st : State) : State × List CloseEvent :=
  ({ st with connected := false },
    [CloseEvent.cleanupConnection, CloseEvent.channelClosedCallback])

end WebsocketProtocol

/-! ### The session controller (`Application`) -/

/-- `DeviceState` (src/constants/constants.py). -/
inductive DeviceState
  | idle
  | connecting
  | listening
  | speaking
deriving DecidableEq, Repr

/-- `ListeningMode` (src/constants/constants.py). -/
inductive ListeningMode
  | realtime
  | autoStop
  | manual
deriving DecidableEq, Repr

/-- `AbortReason` (src/constants/constants.py). -/
inductive AbortReason
  | noReason
  | wakeWordDetected
  | userInterruption
deriving DecidableEq, Repr

namespace Application

/-- `Application._should_send_microphone_audio`, verbatim. -/
def _should_send_microphone_audio (deviceState : DeviceState)
    (listeningMode : ListeningMode) (aecEnabled keepListening : Bool) : Bool :=
  deviceState = DeviceState.listening ∨
    (deviceState = DeviceState.speaking ∧ aecEnabled ∧ keepListening ∧
      listeningMode = ListeningMode.realtime)

/-- Externally visible actions of `Application._on_incoming_audio`. -/
inductive AudioEvent
  | cmdSetDeviceState (s : DeviceState)
  | scheduleWrite (data : List Nat)
deriving DecidableEq, Repr

/-- `Application._on_incoming_audio`: the gate `should_play_audio` is
computed first from the current device state and listening mode; only
when it holds (and the codec exists and the app is running) does the
body run.  The body twice checks `device_state == IDLE` and, if so,
schedules a flip to SPEAKING over the command queue (in sequential
execution the state cannot be IDLE there, since the gate already ruled
it out), then schedules the frame write.  The non-observable timer
bookkeeping between the two checks is omitted.  Returns the scheduled
actions in order. -/
def _on_incoming_audio (deviceState : DeviceState) (listeningMode : ListeningMode)
    (hasAudioCodec running : Bool) (data : List Nat) : List AudioEvent :=
  let shouldPlayAudio := deviceState = DeviceState.speaking ∨
    (deviceState = DeviceState.listening ∧ listeningMode = ListeningMode.realtime)
  if shouldPlayAudio ∧ hasAudioCodec ∧ running then
    (if deviceState = DeviceState.idle
      then [AudioEvent.cmdSetDeviceState DeviceState.speaking] else []) ++
    (if deviceState = DeviceState.idle
      then [AudioEvent.cmdSetDeviceState DeviceState.speaking] else []) ++
    [AudioEvent.scheduleWrite data]
  else []

/-- The `Application` state touched by `abort_speaking`. -/
structure AbortState where
  aborted : Bool
  abortedEvent : Bool
  keepListening : Bool
  channelOpened : Bool
deriving DecidableEq, Repr

/-- Where, if anywhere, the `try` block of `abort_speaking` raises. -/
inductive AbortOutcome
  | ok
  | failBeforeSend
  | failAfterSend
deriving DecidableEq, Repr

/-- Externally visible actions of `Application.abort_speaking`. -/
inductive AbortEvent
  | flushAudioQueue
  | sendAbortMessage
  | cmdSetDeviceState (s : DeviceState)
  | sendStartListening
deriving DecidableEq, Repr

/-- `Application.abort_speaking`: a call that sees `aborted` already set
returns immediately.  Otherwise the flag and event are set, the audio
queue is flushed, and the `try` block sends the abort control message
and schedules the IDLE state; whether it completes or raises, the
`finally` clears the flag and event.  On full success with
`reason == WAKE_WORD_DETECTED`, keep-listening set and the channel
open, listening is restarted afterwards. -/
def abort_speaking (st : AbortState) (reason : AbortReason) (o : AbortOutcome) :
    AbortState × List AbortEvent :=
  if st.aborted then (st, [])
  else
    let cleared : AbortState := { st with aborted := false, abortedEvent := false }
    match o with
    | AbortOutcome.failBeforeSend => (cleared, [AbortEvent.flushAudioQueue])
    | AbortOutcome.failAfterSend =>
      (cleared, [AbortEvent.flushAudioQueue, AbortEvent.sendAbortMessage])
    | AbortOutcome.ok =>
      let evs := [AbortEvent.flushAudioQueue, AbortEvent.sendAbortMessage,
        AbortEvent.cmdSetDeviceState DeviceState.idle]
      if reason = AbortReason.wakeWordDetected ∧ st.keepListening ∧ st.channelOpened then
        (cleared, evs ++ [AbortEvent.sendStartListening,
          AbortEvent.cmdSetDeviceState DeviceState.listening])
      else (cleared, evs)

/-- The state of `abort_speaking` between setting the `aborted` flag and
the `finally` block: a concurrent second call observes this state. -/
def abortInProgress (st : AbortState) : AbortState :=
  { st with aborted := true, abortedEvent := true }

end Application

/-! ### Bounded drop-oldest queues -/

/-- `AudioCodec._put_audio_data_safe` on a queue of capacity `cap`:
`put_nowait`, on `QueueFull` drop the oldest item and insert (the
`QueueEmpty` fallback still inserts). -/
def _put_audio_data_safe {α : Type} (cap : Nat) (q : List α) (x : α) : List α :=
  if q.length < cap then q ++ [x]
  else
    match q with
    | [] => [x]
    | _ :: t => t ++ [x]

/-- The enqueue step of `Application._enqueue_command` once the
running/shutdown/queue-present guards have passed: `put_nowait`, on
`QueueFull` drop the oldest command and re-enqueue (the `QueueEmpty`
fallback drops the command). -/
def _enqueue_command {α : Type} (cap : Nat) (q : List α) (x : α) : List α :=
  if q.length < cap then q ++ [x]
  else
    match q with
    | [] => q
    | _ :: t => t ++ [x]

/-! ### Shape of the packet nonce built by `send_audio` -/

theorem hexRep_all_lt : ∀ n : Nat, ∀ d ∈ hexRep n, d < 16 := by
  intro n
  induction n using Nat.strong_induction_on with
  | _ n ih =>
    intro d hd
    rw [hexRep_unfold] at hd
    split at hd
    · simp at hd
    · rw [List.mem_append] at hd
      rcases hd with hd | hd
      · exact ih (n / 16) (Nat.div_lt_self (by omega) (by omega)) d hd
      · simp at hd
        omega

theorem pyHex_all_lt (w n : Nat) : ∀ d ∈ pyHex w n, d < 16 := by
  intro d hd
  unfold pyHex at hd
  rw [List.mem_append] at hd
  rcases hd with hd | hd
  · rw [List.eq_of_mem_replicate hd]
    omega
  · split at hd
    · simp at hd
      omega
    · exact hexRep_all_lt n d hd

theorem nibblePairs_all_lt :
    ∀ l : List Nat, (∀ d ∈ l, d < 16) → ∀ b ∈ nibblePairs l, b < 256
  | [], _, b, hb => by simp [nibblePairs] at hb
  | [x], _, b, hb => by simp [nibblePairs] at hb
  | hi :: lo :: t, h, b, hb => by
    rw [show nibblePairs (hi :: lo :: t) = (16 * hi + lo) :: nibblePairs t from rfl,
      List.mem_cons] at hb
    rcases hb with hb | hb
    · have h1 : hi < 16 := h hi (by simp)
      have h2 : lo < 16 := h lo (by simp)
      omega
    · exact nibblePairs_all_lt t (fun d hd => h d (by simp [hd])) b hb

theorem drop_append_exact {α : Type} (l1 l2 : List α) (n : Nat)
    (h : l1.length = n) : (l1 ++ l2).drop n = l2 := by
  subst h
  exact List.drop_left l1 l2

theorem take_append_exact {α : Type} (l1 l2 : List α) (n : Nat)
    (h : l1.length = n) : (l1 ++ l2).take n = l1 :=
  List.take_left' h

theorem drop_append_over {α : Type} (l1 l2 : List α) (n m : Nat)
    (h : l1.length = m) (hn : m ≤ n) : (l1 ++ l2).drop n = l2.drop (n - m) := by
  rw [List.drop_append_eq_append_drop, h,
    List.drop_eq_nil_of_le (by omega), List.nil_append]

/-- The hex nonce assembled by `send_audio` from template `t`, payload
length `L` and (already incremented) sequence number `s`. -/
def nonceHexOf (t : List Nat) (L s : Nat) : List Nat :=
  t.take 4 ++ pyHex 4 L ++ (t.drop 8).take 16 ++ pyHex 8 s

/-- Shape facts about the nonce: for a 32-digit template, a payload
length below 16⁴ and a sequence number below 16⁸, the nonce hex string
has 32 valid digits, converts to 16 bytes, its hex positions [0:4],
[4:8], [8:24] and [24:32] are the template prefix, the length field,
the template middle and the sequence field, and the byte-level sequence
field (bytes [12:16]) evaluates back to `s`. -/
theorem nonceHexOf_shape (t : List Nat) (L s : Nat)
    (ht : t.length = 32) (htd : ∀ d ∈ t, d < 16)
    (hL : L < 65536) (hs : s < 4294967296) :
    (nonceHexOf t L s).length = 32 ∧
    (∀ d ∈ nonceHexOf t L s, d < 16) ∧
    pyFromHex (nonceHexOf t L s) = some (nibblePairs (nonceHexOf t L s)) ∧
    (nibblePairs (nonceHexOf t L s)).length = 16 ∧
    (∀ b ∈ nibblePairs (nonceHexOf t L s), b < 256) ∧
    (nonceHexOf t L s).take 4 = t.take 4 ∧
    ((nonceHexOf t L s).drop 4).take 4 = pyHex 4 L ∧
    ((nonceHexOf t L s).drop 8).take 16 = (t.drop 8).take 16 ∧
    (nonceHexOf t L s).drop 24 = pyHex 8 s ∧
    (nibblePairs (nonceHexOf t L s)).drop 12 = nibblePairs (pyHex 8 s) ∧
    bytesToNat ((nibblePairs (nonceHexOf t L s)).drop 12) = s := by
  have h4 : (pyHex 4 L).length = 4 := pyHex_length 4 L (by omega) (by norm_num; omega)
  have h8 : (pyHex 8 s).length = 8 := pyHex_length 8 s (by omega) (by norm_num; omega)
  have hta : (t.take 4).length = 4 := by simp [List.length_take]; omega
  have htb : ((t.drop 8).take 16).length = 16 := by simp [List.length_take]; omega
  have assoc : nonceHexOf t L s =
      t.take 4 ++ (pyHex 4 L ++ ((t.drop 8).take 16 ++ pyHex 8 s)) := by
    simp [nonceHexOf, List.append_assoc]
  have hlen : (nonceHexOf t L s).length = 32 := by
    simp [nonceHexOf, List.length_append, h4, h8, hta, htb]
  have hdig : ∀ d ∈ nonceHexOf t L s, d < 16 := by
    intro d hd
    unfold nonceHexOf at hd
    simp only [List.mem_append] at hd
    rcases hd with ((hd | hd) | hd) | hd
    · exact htd d (List.mem_of_mem_take hd)
    · exact pyHex_all_lt 4 L d hd
    · exact htd d (List.mem_of_mem_drop (List.mem_of_mem_take hd))
    · exact pyHex_all_lt 8 s d hd
  have hpairs : nibblePairs (nonceHexOf t L s) =
      nibblePairs (t.take 4) ++ (nibblePairs (pyHex 4 L) ++
        (nibblePairs ((t.drop 8).take 16) ++ nibblePairs (pyHex 8 s))) := by
    rw [assoc, nibblePairs_append _ (by rw [hta]) _,
      nibblePairs_append _ (by rw [h4]) _,
      nibblePairs_append _ (by rw [htb]) _]
  have hpa : (nibblePairs (t.take 4)).length = 2 := by
    rw [nibblePairs_length, hta]
  have hpb : (nibblePairs (pyHex 4 L)).length = 2 := by
    rw [nibblePairs_length, h4]
  have hpc : (nibblePairs ((t.drop 8).take 16)).length = 8 := by
    rw [nibblePairs_length, htb]
  have hdrop12 : (nibblePairs (nonceHexOf t L s)).drop 12 = nibblePairs (pyHex 8 s) := by
    rw [hpairs, drop_append_over _ _ 12 2 hpa (by omega),
      drop_append_over _ _ 10 2 hpb (by omega),
      drop_append_exact _ _ 8 hpc]
  refine ⟨hlen, hdig, ?_, ?_, ?_, ?_, ?_, ?_, ?_, hdrop12, ?_⟩
  · unfold pyFromHex
    rw [if_pos]
    constructor
    · rw [hlen]
    · rw [List.all_eq_true]
      intro d hd
      simpa using hdig d (by simpa using hd)
  · rw [nibblePairs_length, hlen]
  · exact nibblePairs_all_lt _ hdig
  · rw [assoc, take_append_exact _ _ 4 hta]
  · rw [assoc, drop_append_exact _ _ 4 hta, take_append_exact _ _ 4 h4]
  · rw [assoc, drop_append_over _ _ 8 4 hta (by omega),
      drop_append_exact _ _ 4 h4, take_append_exact _ _ 16 htb]
  · rw [assoc, drop_append_over _ _ 24 4 hta (by omega),
      drop_append_over _ _ 20 4 h4 (by omega),
      drop_append_exact _ _ 16 htb]
  · rw [hdrop12, bytesToNat_nibblePairs _ (by rw [h8]), hexVal_pyHex]

theorem pyFromHex_valid (l : List Nat) (he : l.length % 2 = 0)
    (hd : ∀ d ∈ l, d < 16) : pyFromHex l = some (nibblePairs l) := by
  unfold pyFromHex
  rw [if_pos]
  refine ⟨he, ?_⟩
  rw [List.all_eq_true]
  intro d hdm
  simpa using hd d (by simpa using hdm)

/-- Full characterisation of a successful `send_audio` call: with valid
32-digit key and nonce-template hex strings and a payload shorter than
65536 bytes, the call increments the counter twice, and sends
`nonce_bytes ++ AES-CTR(key, nonce, payload)` where the nonce is
`nonceHexOf` of the template, the payload length and the incremented
sequence number. -/
theorem send_audio_spec (st : MqttProtocol.State) (kh nt audio : List Nat)
    (hk : st.aesKeyHex = some kh) (hn : st.aesNonceHex = some nt)
    (hkl : kh.length = 32) (hkd : ∀ d ∈ kh, d < 16)
    (hnl : nt.length = 32) (hnd : ∀ d ∈ nt, d < 16)
    (hL : audio.length < 65536) :
    MqttProtocol.send_audio st audio =
      ({ st with localSequence := (st.localSequence + 1) % 4294967296 + 1 },
        some (nibblePairs (nonceHexOf nt audio.length ((st.localSequence + 1) % 4294967296)) ++
          aes_ctr_encrypt (nibblePairs kh)
            (nibblePairs (nonceHexOf nt audio.length ((st.localSequence + 1) % 4294967296)))
            audio)) := by
  obtain ⟨hsh1, hsh2, hsh3, hsh4, hsh5, -, -, -, -, -, -⟩ :=
    nonceHexOf_shape nt audio.length ((st.localSequence + 1) % 4294967296)
      hnl hnd hL (Nat.mod_lt _ (by omega))
  have hkey : pyFromHex kh = some (nibblePairs kh) :=
    pyFromHex_valid kh (by omega) hkd
  unfold MqttProtocol.send_audio
  rw [hk, hn]
  show (match pyFromHex kh, pyFromHex (nonceHexOf nt audio.length _) with
    | some keyB, some nonceB =>
      if keyB.length = 16 ∧ nonceB.length = 16 then _ else _
    | _, _ => _) = _
  rw [hkey, hsh3]
  show (if (nibblePairs kh).length = 16 ∧
      (nibblePairs (nonceHexOf nt audio.length ((st.localSequence + 1) % 4294967296))).length = 16
    then _ else _) = _
  rw [if_pos ⟨by rw [nibblePairs_length, hkl], hsh4⟩]

/-! ### Claim theorems -/

/-- Claim C9 (confirmed): the microphone-forwarding decision is a pure
function of exactly (device state, listening mode, echo-cancellation
enabled, keep-listening) — it is defined as a function of those four
arguments alone — and it is true iff the state is LISTENING, or the
state is SPEAKING with echo cancellation enabled, keep-listening set and
the listening mode REALTIME. -/
theorem C9_microphone_forwarding_iff :
    ∀ (s : DeviceState) (m : ListeningMode) (aec kl : Bool),
      Application._should_send_microphone_audio s m aec kl = true ↔
        (s = DeviceState.listening ∨
          (s = DeviceState.speaking ∧ aec = true ∧ kl = true ∧
            m = ListeningMode.realtime)) := by
  intro s m aec kl
  cases s <;> cases m <;> cases aec <;> cases kl <;> decide

/-- Claim C7 (confirmed): a datagram shorter than 16 bytes on the
broker transport's media socket is dropped — the incoming-audio
callback is not invoked for it, the receive loop continues with the
remaining datagrams, and a subsequent valid packet (16 bytes or more,
with a well-formed 16-byte AES key) is still decrypted and forwarded
normally. -/
theorem C7_short_datagram_dropped (keyHex short : List Nat)
    (rest : List (List Nat)) (h : short.length < 16) :
    MqttProtocol.processPacket keyHex short = none ∧
    MqttProtocol.receiveLoop keyHex (short :: rest) =
      MqttProtocol.receiveLoop keyHex rest ∧
    (∀ valid kb : List Nat, 16 ≤ valid.length → pyFromHex keyHex = some kb →
      kb.length = 16 →
      MqttProtocol.receiveLoop keyHex [short, valid] =
        [aes_ctr_decrypt kb (valid.take 16) (valid.drop 16)]) := by
  have hdrop : MqttProtocol.processPacket keyHex short = none := by
    unfold MqttProtocol.processPacket
    rw [if_pos h]
  refine ⟨hdrop, ?_, ?_⟩
  · unfold MqttProtocol.receiveLoop
    rw [List.filterMap_cons, hdrop]
  · intro valid kb hv hk hkl
    have hvalid : MqttProtocol.processPacket keyHex valid =
        some (aes_ctr_decrypt kb (valid.take 16) (valid.drop 16)) := by
      unfold MqttProtocol.processPacket
      rw [if_neg (by omega), hk]
      show (if kb.length = 16
        then some (aes_ctr_decrypt kb (valid.take 16) (valid.drop 16))
        else none) = _
      rw [if_pos hkl]
    unfold MqttProtocol.receiveLoop
    rw [List.filterMap_cons, hdrop, List.filterMap_cons, hvalid]
    rfl

theorem C7_short_datagram_dropped_witness :
    (List.replicate 10 (0 : Nat)).length < 16 ∧
    (MqttProtocol.processPacket (List.replicate 32 0) (List.replicate 10 0) = none ∧
      MqttProtocol.receiveLoop (List.replicate 32 0)
          (List.replicate 10 0 :: [List.replicate 16 0]) =
        MqttProtocol.receiveLoop (List.replicate 32 0) [List.replicate 16 0] ∧
      (∀ valid kb : List Nat, 16 ≤ valid.length →
        pyFromHex (List.replicate 32 0) = some kb → kb.length = 16 →
        MqttProtocol.receiveLoop (List.replicate 32 0) [List.replicate 10 0, valid] =
          [aes_ctr_decrypt kb (valid.take 16) (valid.drop 16)])) :=
  ⟨by decide,
    C7_short_datagram_dropped (List.replicate 32 0) (List.replicate 10 0)
      [List.replicate 16 0] (by decide)⟩

/-- Claim C10 (confirmed): a datagram of exactly 16 bytes passes the
minimum-size check, splits into a 16-byte nonce and an empty
ciphertext, decrypts to the empty payload, and the incoming-audio
callback is invoked with empty bytes. -/
theorem C10_sixteen_byte_datagram (keyHex data kb : List Nat)
    (hl : data.length = 16) (hk : pyFromHex keyHex = some kb)
    (hkl : kb.length = 16) :
    data.take 16 = data ∧ data.drop 16 = [] ∧
    MqttProtocol.processPacket keyHex data = some [] := by
  have htake : data.take 16 = data := List.take_of_length_le (by omega)
  have hdrop : data.drop 16 = [] := List.drop_eq_nil_of_le (by omega)
  refine ⟨htake, hdrop, ?_⟩
  unfold MqttProtocol.processPacket
  rw [if_neg (by omega), hk]
  show (if kb.length = 16
    then some (aes_ctr_decrypt kb (data.take 16) (data.drop 16))
    else none) = _
  rw [if_pos hkl, hdrop]
  rfl

theorem C10_sixteen_byte_datagram_witness :
    (List.replicate 16 (0 : Nat)).length = 16 ∧
    (List.replicate 16 (0 : Nat)).take 16 = List.replicate 16 0 ∧
    (List.replicate 16 (0 : Nat)).drop 16 = [] ∧
    MqttProtocol.processPacket (List.replicate 32 0) (List.replicate 16 0) = some [] := by
  have h := C10_sixteen_byte_datagram (List.replicate 32 0) (List.replicate 16 0)
    (List.replicate 16 0) (by decide) (by decide) (by decide)
  exact ⟨by decide, h.1, h.2.1, h.2.2⟩

theorem put_audio_eq_enqueue {α : Type} (cap : Nat) (hc : 0 < cap)
    (q : List α) (x : α) :
    _enqueue_command cap q x = _put_audio_data_safe cap q x := by
  unfold _enqueue_command _put_audio_data_safe
  cases q with
  | nil => rw [if_pos (by simpa using hc), if_pos (by simpa using hc)]
  | cons a t => rfl

theorem put_audio_fill {α : Type} (cap : Nat) :
    ∀ (L : List α) (q : List α), q.length + L.length ≤ cap →
      List.foldl (_put_audio_data_safe cap) q L = q ++ L
  | [], q, _ => by simp
  | x :: t, q, h => by
    have hq : q.length < cap := by simp at h; omega
    show List.foldl (_put_audio_data_safe cap) (_put_audio_data_safe cap q x) t = _
    rw [show _put_audio_data_safe cap q x = q ++ [x] by
      unfold _put_audio_data_safe; rw [if_pos hq]]
    rw [put_audio_fill cap t (q ++ [x]) (by simp at h ⊢; omega)]
    simp

theorem enqueue_foldl_eq {α : Type} (cap : Nat) (hc : 0 < cap) :
    ∀ (L : List α) (q : List α),
      List.foldl (_enqueue_command cap) q L = List.foldl (_put_audio_data_safe cap) q L
  | [], _ => rfl
  | a :: t, q => by
    show List.foldl _ (_enqueue_command cap q a) t = _
    rw [put_audio_eq_enqueue cap hc, enqueue_foldl_eq cap hc t]
    rfl

/-- Claim C8 (confirmed): for each bounded drop-oldest queue (the audio
codec's wake-word/playback queues and the session controller's command
queue) of capacity `cap > 0`: pushing into a full queue evicts the
oldest item and appends the new one, and pushing `cap + 1` items into
an empty queue retains exactly the last `cap` of them — the oldest is
evicted.  Both push operations are total Lean functions: they never
block and never raise. -/
theorem C8_bounded_queue_drop_oldest {α : Type} (cap : Nat) (hc : 0 < cap) :
    (∀ (q : List α) (x : α), q.length = cap →
      _put_audio_data_safe cap q x = q.tail ++ [x] ∧
      _enqueue_command cap q x = q.tail ++ [x]) ∧
    (∀ L : List α, L.length = cap + 1 →
      List.foldl (_put_audio_data_safe cap) [] L = L.tail ∧
      List.foldl (_enqueue_command cap) [] L = L.tail ∧
      (List.foldl (_put_audio_data_safe cap) [] L).length = cap) := by
  have hfull : ∀ (q : List α) (x : α), q.length = cap →
      _put_audio_data_safe cap q x = q.tail ++ [x] := by
    intro q x hq
    unfold _put_audio_data_safe
    rw [if_neg (by omega)]
    cases q with
    | nil => simp at hq; omega
    | cons a t => rfl
  have hfold : ∀ L : List α, L.length = cap + 1 →
      List.foldl (_put_audio_data_safe cap) [] L = L.tail := by
    intro L hL
    obtain ⟨y, hy⟩ : ∃ y, L.drop cap = [y] := by
      rw [← List.length_eq_one]
      rw [List.length_drop, hL]
      omega
    have hsplit : L = L.take cap ++ [y] := by
      rw [← hy, List.take_append_drop]
    have htl : (L.take cap).length = cap := by
      rw [List.length_take, hL]
      omega
    calc List.foldl (_put_audio_data_safe cap) [] L
        = List.foldl (_put_audio_data_safe cap) [] (L.take cap ++ [y]) := by
          rw [← hsplit]
      _ = _put_audio_data_safe cap
            (List.foldl (_put_audio_data_safe cap) [] (L.take cap)) y := by
          rw [List.foldl_append]
          rfl
      _ = _put_audio_data_safe cap (L.take cap) y := by
          rw [put_audio_fill cap (L.take cap) [] (by simpa using le_of_eq htl)]
          simp
      _ = (L.take cap).tail ++ [y] := hfull (L.take cap) y htl
      _ = L.tail := by
          conv_rhs => rw [hsplit]
          cases hcap : L.take cap with
          | nil =>
            exfalso
            rw [hcap] at htl
            simp at htl
            omega
          | cons a t => simp
  refine ⟨fun q x hq => ⟨hfull q x hq, ?_⟩, fun L hL => ⟨hfold L hL, ?_, ?_⟩⟩
  · rw [put_audio_eq_enqueue cap hc]
    exact hfull q x hq
  · rw [enqueue_foldl_eq cap hc L, hfold L hL]
  · rw [hfold L hL, List.length_tail, hL]
    omega

theorem C8_bounded_queue_drop_oldest_witness :
    (0 : Nat) < 2 ∧
    (_put_audio_data_safe 2 [5, 6] (7 : Nat) = [6, 7] ∧
      _enqueue_command 2 [5, 6] (7 : Nat) = [6, 7]) ∧
    (List.foldl (_put_audio_data_safe 2) [] [1, 2, 3] = [2, 3] ∧
      List.foldl (_enqueue_command 2) [] [1, 2, 3] = [2, 3] ∧
      (List.foldl (_put_audio_data_safe 2) ([] : List Nat) [1, 2, 3]).length = 2) := by
  have h := C8_bounded_queue_drop_oldest (α := Nat) 2 (by decide)
  exact ⟨by decide, h.1 [5, 6] 7 (by decide), h.2 [1, 2, 3] (by decide)⟩

/-- Claim C4, counterexample: on the socket (websocket) transport, a
`close_audio_channel` call from a state with session id `"abc"` sends
no goodbye control message and leaves `session_id` untouched — the
claim's "sends a session-scoped goodbye … and resets session_id" is
false for this transport. -/
theorem C4_websocket_counterexample :
    (∀ sid : String, CloseEvent.sendGoodbye sid ∉
      (WebsocketProtocol.close_audio_channel ⟨some "abc", true⟩).2) ∧
    (WebsocketProtocol.close_audio_channel ⟨some "abc", true⟩).1.sessionId =
      some "abc" := by
  constructor
  · intro sid hmem
    simp [WebsocketProtocol.close_audio_channel] at hmem
  · rfl

/-- Claim C4 (corrected): the broker (MQTT) transport's
`close_audio_channel` sends a session-scoped goodbye when a non-empty
session id is set, tears down the media path (stops the UDP receiver,
closes the socket, disconnects MQTT), invokes the channel-closed
callback and resets `session_id`; the socket (websocket) transport's
`close_audio_channel` only tears down the connection and invokes the
callback — it sends no goodbye and does not reset `session_id`. -/
theorem C4_close_audio_channel_contract (mst : MqttProtocol.State) (sid : String)
    (hs : mst.sessionId = some sid) (hne : sid ≠ "") :
    ((MqttProtocol.close_audio_channel mst).2 =
      [CloseEvent.sendGoodbye sid, CloseEvent.stopUdpReceiver,
        CloseEvent.closeUdpSocket, CloseEvent.disconnectMqtt,
        CloseEvent.channelClosedCallback] ∧
     (MqttProtocol.close_audio_channel mst).1.sessionId = none) ∧
    (∀ wst : WebsocketProtocol.State,
      (WebsocketProtocol.close_audio_channel wst).2 =
        [CloseEvent.cleanupConnection, CloseEvent.channelClosedCallback] ∧
      (WebsocketProtocol.close_audio_channel wst).1.sessionId = wst.sessionId ∧
      (∀ s : String, CloseEvent.sendGoodbye s ∉
        (WebsocketProtocol.close_audio_channel wst).2)) := by
  refine ⟨⟨?_, rfl⟩, fun wst => ⟨rfl, rfl, ?_⟩⟩
  · unfold MqttProtocol.close_audio_channel
    rw [hs]
    simp [hne]
  · intro s hmem
    simp [WebsocketProtocol.close_audio_channel] at hmem

theorem C4_close_audio_channel_contract_witness :
    (MqttProtocol.State.mk none none 0 0 (some "sess")).sessionId = some "sess" ∧
    "sess" ≠ "" ∧
    ((MqttProtocol.close_audio_channel ⟨none, none, 0, 0, some "sess"⟩).2 =
      [CloseEvent.sendGoodbye "sess", CloseEvent.stopUdpReceiver,
        CloseEvent.closeUdpSocket, CloseEvent.disconnectMqtt,
        CloseEvent.channelClosedCallback] ∧
     (MqttProtocol.close_audio_channel ⟨none, none, 0, 0, some "sess"⟩).1.sessionId =
       none) := by
  have h := C4_close_audio_channel_contract ⟨none, none, 0, 0, some "sess"⟩ "sess"
    rfl (by decide)
  exact ⟨rfl, by decide, h.1⟩

/-- Claim C5, counterexample: an audio frame delivered while the device
state is IDLE produces no scheduled actions at all — in particular the
frame is not written and no flip to SPEAKING is scheduled, contradicting
"flips the state to SPEAKING … before the frame is written, rather than
dropping the frame". -/
theorem C5_idle_frame_dropped_counterexample :
    ¬(Application.AudioEvent.cmdSetDeviceState DeviceState.speaking ∈
        Application._on_incoming_audio DeviceState.idle ListeningMode.realtime
          true true [1, 2, 3] ∧
      Application.AudioEvent.scheduleWrite [1, 2, 3] ∈
        Application._on_incoming_audio DeviceState.idle ListeningMode.realtime
          true true [1, 2, 3]) := by
  decide

/-- Claim C5 (corrected): an inbound audio frame delivered while the
device state is IDLE is dropped: the `should_play_audio` gate (SPEAKING,
or LISTENING in realtime mode) is false, so nothing is scheduled — no
write and no state flip.  Moreover the IDLE→SPEAKING flip branches
inside the gate are dead in sequential execution: no call ever schedules
a flip to SPEAKING, for any state. -/
theorem C5_idle_audio_dropped :
    (∀ (m : ListeningMode) (codec running : Bool) (data : List Nat),
      Application._on_incoming_audio DeviceState.idle m codec running data = []) ∧
    (∀ (s : DeviceState) (m : ListeningMode) (codec running : Bool) (data : List Nat),
      Application.AudioEvent.cmdSetDeviceState DeviceState.speaking ∉
        Application._on_incoming_audio s m codec running data) := by
  constructor
  · intro m codec running data
    unfold Application._on_incoming_audio
    rw [if_neg]
    simp
  · intro s m codec running data
    cases s <;> cases m <;> cases codec <;> cases running <;>
      simp [Application._on_incoming_audio]

/-- Claim C6 (confirmed): from a non-aborted state, a successful
`abort_speaking` call emits exactly one abort control message and
exactly one audio-queue flush; a second call arriving while the first
is still in flight (i.e. between the flag being set and the `finally`
block) sees `aborted` set and is a complete no-op, so two calls in
quick succession produce exactly one abort message and one flush; and
whatever the outcome of the `try` block — success, failure before the
send, or failure after it — the aborted flag and event are cleared when
the call completes, so the controller is never left stuck aborted. -/
theorem C6_abort_speaking_once_and_cleared (st : Application.AbortState)
    (reason : AbortReason) (h : st.aborted = false) :
    ((Application.abort_speaking st reason Application.AbortOutcome.ok).2.count
        Application.AbortEvent.sendAbortMessage = 1 ∧
      (Application.abort_speaking st reason Application.AbortOutcome.ok).2.count
        Application.AbortEvent.flushAudioQueue = 1) ∧
    (∀ (reason2 : AbortReason) (o2 : Application.AbortOutcome),
      Application.abort_speaking (Application.abortInProgress st) reason2 o2 =
        (Application.abortInProgress st, [])) ∧
    (∀ o : Application.AbortOutcome,
      (Application.abort_speaking st reason o).1.aborted = false ∧
      (Application.abort_speaking st reason o).1.abortedEvent = false) := by
  refine ⟨?_, ?_, ?_⟩
  · unfold Application.abort_speaking
    rw [if_neg (by simp [h])]
    dsimp only
    split
    · constructor <;> rfl
    · constructor <;> rfl
  · intro reason2 o2
    unfold Application.abort_speaking
    rw [if_pos]
    rfl
  · intro o
    unfold Application.abort_speaking
    rw [if_neg (by simp [h])]
    cases o with
    | ok =>
      dsimp only
      split
      · exact ⟨rfl, rfl⟩
      · exact ⟨rfl, rfl⟩
    | failBeforeSend => exact ⟨rfl, rfl⟩
    | failAfterSend => exact ⟨rfl, rfl⟩

theorem C6_abort_speaking_once_and_cleared_witness :
    (Application.AbortState.mk false false true true).aborted = false ∧
    (((Application.abort_speaking ⟨false, false, true, true⟩
        AbortReason.wakeWordDetected Application.AbortOutcome.ok).2.count
          Application.AbortEvent.sendAbortMessage = 1 ∧
      (Application.abort_speaking ⟨false, false, true, true⟩
        AbortReason.wakeWordDetected Application.AbortOutcome.ok).2.count
          Application.AbortEvent.flushAudioQueue = 1) ∧
    (∀ (reason2 : AbortReason) (o2 : Application.AbortOutcome),
      Application.abort_speaking
          (Application.abortInProgress ⟨false, false, true, true⟩) reason2 o2 =
        (Application.abortInProgress ⟨false, false, true, true⟩, [])) ∧
    (∀ o : Application.AbortOutcome,
      (Application.abort_speaking ⟨false, false, true, true⟩
        AbortReason.wakeWordDetected o).1.aborted = false ∧
      (Application.abort_speaking ⟨false, false, true, true⟩
        AbortReason.wakeWordDetected o).1.abortedEvent = false)) :=
  ⟨rfl, C6_abort_speaking_once_and_cleared ⟨false, false, true, true⟩
    AbortReason.wakeWordDetected rfl⟩

theorem pyFromHex_odd (l : List Nat) (h : l.length % 2 = 1) : pyFromHex l = none := by
  unfold pyFromHex
  rw [if_neg]
  intro hc
  omega

/-- If the assembled nonce hex string fails `bytes.fromhex`, the
`except` block swallows the error and `send_audio` sends nothing. -/
theorem send_audio_fromhex_fail (st : MqttProtocol.State) (kh nt audio : List Nat)
    (hk : st.aesKeyHex = some kh) (hn : st.aesNonceHex = some nt)
    (hfail : pyFromHex (nt.take 4 ++ pyHex 4 audio.length ++
      (nt.drop 8).take 16 ++ pyHex 8 ((st.localSequence + 1) % 4294967296)) = none) :
    (MqttProtocol.send_audio st audio).2 = none := by
  unfold MqttProtocol.send_audio
  rw [hk, hn]
  dsimp only
  rw [hfail]
  cases pyFromHex kh <;> rfl

/-- A broker-transport state with all-zero 32-digit key and nonce
template, as set up by a server hello. -/
def stZero : MqttProtocol.State :=
  ⟨some (List.replicate 32 0), some (List.replicate 32 0), 0, 0, some "s"⟩

/-- A 65536-byte payload. -/
def bigPayload : List Nat := List.replicate 65536 0

/-- Claim C1, counterexample: for a payload of 65536 bytes the length
field `format(len, "04x")` is five hex digits, the nonce hex string has
odd length 33, `bytes.fromhex` raises, and `send_audio` sends no packet
at all — the claim's "for every audio payload … sends the wire packet"
fails. -/
theorem C1_oversized_payload_counterexample :
    (MqttProtocol.send_audio stZero bigPayload).2 = none := by
  apply send_audio_fromhex_fail stZero (List.replicate 32 0) (List.replicate 32 0)
    bigPayload rfl rfl
  have hlen : bigPayload.length = 65536 := List.length_replicate 65536 0
  apply pyFromHex_odd
  rw [List.length_append, List.length_append, List.length_append, hlen]
  rw [show (pyHex 4 65536).length = 5 from by decide]
  rw [show (pyHex 8 ((stZero.localSequence + 1) % 4294967296)).length = 8 from by decide]
  rw [show ((List.replicate 32 (0:Nat)).take 4).length = 4 from by decide]
  rw [show (((List.replicate 32 (0:Nat)).drop 8).take 16).length = 16 from by decide]

/-- Claim C1 (corrected): for every payload shorter than 65536 bytes
(the amendment: longer payloads overflow the 4-digit length field and
the send fails), `send_audio` builds the packet nonce from the
handshake template keeping hex positions [0:4] and [8:24] unchanged,
substituting the payload length in big-endian hex at [4:8] and the
packet's sequence number at [24:32], encrypts the payload with AES-CTR
under that 16-byte nonce, and sends exactly the 16 nonce bytes followed
by the ciphertext. -/
theorem C1_send_audio_packet_layout (st : MqttProtocol.State)
    (kh nt audio : List Nat)
    (hk : st.aesKeyHex = some kh) (hn : st.aesNonceHex = some nt)
    (hkl : kh.length = 32) (hkd : ∀ d ∈ kh, d < 16)
    (hnl : nt.length = 32) (hnd : ∀ d ∈ nt, d < 16)
    (hL : audio.length < 65536) :
    ∃ nonceB : List Nat,
      pyFromHex (nonceHexOf nt audio.length
        ((st.localSequence + 1) % 4294967296)) = some nonceB ∧
      nonceB.length = 16 ∧
      (nonceHexOf nt audio.length ((st.localSequence + 1) % 4294967296)).take 4 =
        nt.take 4 ∧
      ((nonceHexOf nt audio.length ((st.localSequence + 1) % 4294967296)).drop 4).take 4 =
        pyHex 4 audio.length ∧
      ((nonceHexOf nt audio.length ((st.localSequence + 1) % 4294967296)).drop 8).take 16 =
        (nt.drop 8).take 16 ∧
      (nonceHexOf nt audio.length ((st.localSequence + 1) % 4294967296)).drop 24 =
        pyHex 8 ((st.localSequence + 1) % 4294967296) ∧
      (MqttProtocol.send_audio st audio).2 =
        some (nonceB ++ aes_ctr_encrypt (nibblePairs kh) nonceB audio) := by
  obtain ⟨-, -, hsh3, hsh4, -, hsh6, hsh7, hsh8, hsh9, -, -⟩ :=
    nonceHexOf_shape nt audio.length ((st.localSequence + 1) % 4294967296)
      hnl hnd hL (Nat.mod_lt _ (by omega))
  refine ⟨nibblePairs (nonceHexOf nt audio.length ((st.localSequence + 1) % 4294967296)),
    hsh3, hsh4, hsh6, hsh7, hsh8, hsh9, ?_⟩
  rw [send_audio_spec st kh nt audio hk hn hkl hkd hnl hnd hL]

theorem C1_send_audio_packet_layout_witness :
    stZero.aesKeyHex = some (List.replicate 32 0) ∧
    stZero.aesNonceHex = some (List.replicate 32 0) ∧
    (List.replicate 32 (0 : Nat)).length = 32 ∧
    (∀ d ∈ List.replicate 32 (0 : Nat), d < 16) ∧
    ([1, 2, 3] : List Nat).length < 65536 ∧
    (∃ nonceB : List Nat,
      pyFromHex (nonceHexOf (List.replicate 32 0) ([1, 2, 3] : List Nat).length
        ((stZero.localSequence + 1) % 4294967296)) = some nonceB ∧
      nonceB.length = 16 ∧
      (nonceHexOf (List.replicate 32 0) ([1, 2, 3] : List Nat).length
        ((stZero.localSequence + 1) % 4294967296)).take 4 =
          (List.replicate 32 (0 : Nat)).take 4 ∧
      ((nonceHexOf (List.replicate 32 0) ([1, 2, 3] : List Nat).length
        ((stZero.localSequence + 1) % 4294967296)).drop 4).take 4 =
          pyHex 4 ([1, 2, 3] : List Nat).length ∧
      ((nonceHexOf (List.replicate 32 0) ([1, 2, 3] : List Nat).length
        ((stZero.localSequence + 1) % 4294967296)).drop 8).take 16 =
          ((List.replicate 32 (0 : Nat)).drop 8).take 16 ∧
      (nonceHexOf (List.replicate 32 0) ([1, 2, 3] : List Nat).length
        ((stZero.localSequence + 1) % 4294967296)).drop 24 =
          pyHex 8 ((stZero.localSequence + 1) % 4294967296) ∧
      (MqttProtocol.send_audio stZero [1, 2, 3]).2 =
        some (nonceB ++ aes_ctr_encrypt (nibblePairs (List.replicate 32 0)) nonceB
          [1, 2, 3])) :=
  ⟨rfl, rfl, by decide, by decide, by decide,
    C1_send_audio_packet_layout stZero (List.replicate 32 0) (List.replicate 32 0)
      [1, 2, 3] rfl rfl (by decide) (by decide) (by decide) (by decide) (by decide)⟩

/-- Claim C2, counterexample: starting from a fresh post-hello state
(sequence counter 0), two consecutive `send_audio` calls embed sequence
fields 1 and 3 — the fields of consecutive packets do not differ by
exactly one (the counter is incremented once before building the nonce
and once more after sending). -/
theorem C2_consecutive_gap_counterexample :
    bytesToNat ((((MqttProtocol.send_audio
        (MqttProtocol.send_audio stZero [7]).1 [7]).2.getD []).take 16).drop 12) ≠
      bytesToNat ((((MqttProtocol.send_audio stZero [7]).2.getD []).take 16).drop 12)
        + 1 := by
  decide

/-- Claim C2 (corrected): the server hello resets the local sequence
counter to zero, and each successful `send_audio` call increments it
twice (once before building the nonce, once after sending), so the
sequence fields embedded in consecutive packets are strictly increasing
but differ by exactly two, not one (here below any 32-bit wraparound). -/
theorem C2_sequence_strictly_increasing_by_two (st : MqttProtocol.State)
    (kh nt p1 p2 : List Nat)
    (hk : st.aesKeyHex = some kh) (hn : st.aesNonceHex = some nt)
    (hkl : kh.length = 32) (hkd : ∀ d ∈ kh, d < 16)
    (hnl : nt.length = 32) (hnd : ∀ d ∈ nt, d < 16)
    (h1 : p1.length < 65536) (h2 : p2.length < 65536)
    (hw : st.localSequence + 3 < 4294967296) :
    (∀ (st0 : MqttProtocol.State) (sid : String) (keyH nonceH : List Nat),
      (MqttProtocol.handleHello st0 sid keyH nonceH).localSequence = 0) ∧
    ∃ pk1 pk2 : List Nat,
      (MqttProtocol.send_audio st p1).2 = some pk1 ∧
      (MqttProtocol.send_audio (MqttProtocol.send_audio st p1).1 p2).2 = some pk2 ∧
      bytesToNat ((pk1.take 16).drop 12) = st.localSequence + 1 ∧
      bytesToNat ((pk2.take 16).drop 12) = st.localSequence + 3 ∧
      bytesToNat ((pk2.take 16).drop 12) = bytesToNat ((pk1.take 16).drop 12) + 2 ∧
      bytesToNat ((pk1.take 16).drop 12) < bytesToNat ((pk2.take 16).drop 12) := by
  refine ⟨fun st0 sid keyH nonceH => rfl, ?_⟩
  have e1 : (st.localSequence + 1) % 4294967296 = st.localSequence + 1 :=
    Nat.mod_eq_of_lt (by omega)
  have spec1 := send_audio_spec st kh nt p1 hk hn hkl hkd hnl hnd h1
  rw [e1] at spec1
  have hst1k : ((MqttProtocol.send_audio st p1).1).aesKeyHex = some kh := by
    rw [spec1]
    exact hk
  have hst1n : ((MqttProtocol.send_audio st p1).1).aesNonceHex = some nt := by
    rw [spec1]
    exact hn
  have hst1seq : ((MqttProtocol.send_audio st p1).1).localSequence =
      st.localSequence + 1 + 1 := by
    rw [spec1]
  have spec2 := send_audio_spec ((MqttProtocol.send_audio st p1).1) kh nt p2
    hst1k hst1n hkl hkd hnl hnd h2
  rw [hst1seq] at spec2
  have e2 : (st.localSequence + 1 + 1 + 1) % 4294967296 = st.localSequence + 3 := by
    rw [Nat.mod_eq_of_lt (by omega)]
  rw [e2] at spec2
  obtain ⟨-, -, -, hsh4a, -, -, -, -, -, -, hsf1⟩ :=
    nonceHexOf_shape nt p1.length (st.localSequence + 1) hnl hnd h1 (by omega)
  obtain ⟨-, -, -, hsh4b, -, -, -, -, -, -, hsf2⟩ :=
    nonceHexOf_shape nt p2.length (st.localSequence + 3) hnl hnd h2 (by omega)
  refine ⟨_, _, by rw [spec1], by rw [spec2], ?_, ?_, ?_, ?_⟩
  · rw [take_append_exact _ _ 16 hsh4a, hsf1]
  · rw [take_append_exact _ _ 16 hsh4b, hsf2]
  · rw [take_append_exact _ _ 16 hsh4a, take_append_exact _ _ 16 hsh4b, hsf1, hsf2]
  · rw [take_append_exact _ _ 16 hsh4a, take_append_exact _ _ 16 hsh4b, hsf1, hsf2]
    omega

theorem C2_sequence_strictly_increasing_by_two_witness :
    stZero.aesKeyHex = some (List.replicate 32 0) ∧
    stZero.localSequence + 3 < 4294967296 ∧
    ((∀ (st0 : MqttProtocol.State) (sid : String) (keyH nonceH : List Nat),
      (MqttProtocol.handleHello st0 sid keyH nonceH).localSequence = 0) ∧
    ∃ pk1 pk2 : List Nat,
      (MqttProtocol.send_audio stZero [1]).2 = some pk1 ∧
      (MqttProtocol.send_audio (MqttProtocol.send_audio stZero [1]).1 [2]).2 = some pk2 ∧
      bytesToNat ((pk1.take 16).drop 12) = stZero.localSequence + 1 ∧
      bytesToNat ((pk2.take 16).drop 12) = stZero.localSequence + 3 ∧
      bytesToNat ((pk2.take 16).drop 12) = bytesToNat ((pk1.take 16).drop 12) + 2 ∧
      bytesToNat ((pk1.take 16).drop 12) < bytesToNat ((pk2.take 16).drop 12)) :=
  ⟨rfl, by decide,
    C2_sequence_strictly_increasing_by_two stZero (List.replicate 32 0)
      (List.replicate 32 0) [1] [2] rfl rfl (by decide) (by decide) (by decide)
      (by decide) (by decide) (by decide) (by decide)⟩

/-- Claim C3, counterexample: "changing S … produces different
ciphertext for the same payload" is false.  With the all-zero key and
template, a one-byte payload, and sequence numbers 23 and 34, the two
constructed nonces differ (in the sequence field) yet the two
ciphertexts are identical, because only the first keystream byte is
used and the corresponding AES outputs happen to agree on that byte. -/
theorem C3_same_ciphertext_counterexample :
    nibblePairs (nonceHexOf (List.replicate 32 0) 1 23) ≠
      nibblePairs (nonceHexOf (List.replicate 32 0) 1 34) ∧
    aes_ctr_encrypt (List.replicate 16 0)
        (nibblePairs (nonceHexOf (List.replicate 32 0) 1 23)) [65] =
      aes_ctr_encrypt (List.replicate 16 0)
        (nibblePairs (nonceHexOf (List.replicate 32 0) 1 34)) [65] := by
  constructor
  · decide
  · decide

/-- Claim C3 (corrected): (1) for every key, nonce and payload,
`aes_ctr_decrypt` of `aes_ctr_encrypt` returns the payload exactly;
(2) two different sequence numbers (same template, same payload length)
yield nonce hex strings that differ exactly in the sequence field
(positions [24:32]); (3) the amendment: the two nonces produce
different ciphertext for the same payload provided the payload is at
least one AES block (16 bytes) long — shorter payloads can collide, as
the counterexample shows, since only a prefix of the differing
keystream blocks is used. -/
theorem C3_ctr_roundtrip_and_seq_distinctness :
    (∀ key nonce p : List Nat,
      aes_ctr_decrypt key nonce (aes_ctr_encrypt key nonce p) = p) ∧
    (∀ (t : List Nat) (L s1 s2 : Nat), t.length = 32 → (∀ d ∈ t, d < 16) →
      L < 65536 → s1 < 4294967296 → s2 < 4294967296 → s1 ≠ s2 →
      (nonceHexOf t L s1).drop 24 = pyHex 8 s1 ∧
      (nonceHexOf t L s2).drop 24 = pyHex 8 s2 ∧
      (nonceHexOf t L s1).drop 24 ≠ (nonceHexOf t L s2).drop 24 ∧
      nibblePairs (nonceHexOf t L s1) ≠ nibblePairs (nonceHexOf t L s2)) ∧
    (∀ (t kh p : List Nat) (s1 s2 : Nat), t.length = 32 → (∀ d ∈ t, d < 16) →
      kh.length = 32 → (∀ d ∈ kh, d < 16) →
      16 ≤ p.length → p.length < 65536 →
      s1 < 4294967296 → s2 < 4294967296 → s1 ≠ s2 →
      aes_ctr_encrypt (nibblePairs kh) (nibblePairs (nonceHexOf t p.length s1)) p ≠
        aes_ctr_encrypt (nibblePairs kh) (nibblePairs (nonceHexOf t p.length s2)) p) := by
  have hseq : ∀ (t : List Nat) (L s1 s2 : Nat), t.length = 32 → (∀ d ∈ t, d < 16) →
      L < 65536 → s1 < 4294967296 → s2 < 4294967296 → s1 ≠ s2 →
      nibblePairs (nonceHexOf t L s1) ≠ nibblePairs (nonceHexOf t L s2) := by
    intro t L s1 s2 ht htd hL hs1 hs2 hne heq
    obtain ⟨-, -, -, -, -, -, -, -, -, hd1, hv1⟩ :=
      nonceHexOf_shape t L s1 ht htd hL hs1
    obtain ⟨-, -, -, -, -, -, -, -, -, hd2, hv2⟩ :=
      nonceHexOf_shape t L s2 ht htd hL hs2
    apply hne
    have := congrArg (fun l => bytesToNat (l.drop 12)) heq
    dsimp only at this
    rw [hv1, hv2] at this
    exact this
  refine ⟨aes_ctr_decrypt_encrypt, ?_, ?_⟩
  · intro t L s1 s2 ht htd hL hs1 hs2 hne
    obtain ⟨-, -, -, -, -, -, -, -, hd24a, -, -⟩ :=
      nonceHexOf_shape t L s1 ht htd hL hs1
    obtain ⟨-, -, -, -, -, -, -, -, hd24b, -, -⟩ :=
      nonceHexOf_shape t L s2 ht htd hL hs2
    refine ⟨hd24a, hd24b, ?_, hseq t L s1 s2 ht htd hL hs1 hs2 hne⟩
    rw [hd24a, hd24b]
    intro heq
    apply hne
    have := congrArg hexVal heq
    rwa [hexVal_pyHex, hexVal_pyHex] at this
  · intro t kh p s1 s2 ht htd hkl hkd hp hL hs1 hs2 hne heq
    obtain ⟨-, -, -, h4a, h5a, -, -, -, -, -, -⟩ :=
      nonceHexOf_shape t p.length s1 ht htd hL hs1
    obtain ⟨-, -, -, h4b, h5b, -, -, -, -, -, -⟩ :=
      nonceHexOf_shape t p.length s2 ht htd hL hs2
    have hnonceEq := ctr_ct_eq_imp_nonce_eq
      (by rw [nibblePairs_length, hkl])
      (nibblePairs_all_lt kh hkd)
      h4a h5a h4b h5b hp heq
    exact hseq t p.length s1 s2 ht htd hL hs1 hs2 hne hnonceEq

theorem C3_ctr_roundtrip_and_seq_distinctness_witness :
    ((List.replicate 32 (0 : Nat)).length = 32 ∧ (∀ d ∈ List.replicate 32 (0 : Nat), d < 16) ∧
      (16 : Nat) ≤ (List.replicate 16 (7 : Nat)).length ∧
      (List.replicate 16 (7 : Nat)).length < 65536 ∧
      (1 : Nat) < 4294967296 ∧ (2 : Nat) < 4294967296 ∧ (1 : Nat) ≠ 2) ∧
    aes_ctr_decrypt (List.replicate 16 0) (List.replicate 16 0)
        (aes_ctr_encrypt (List.replicate 16 0) (List.replicate 16 0) [1, 2, 3]) =
      [1, 2, 3] ∧
    ((nonceHexOf (List.replicate 32 0) 3 1).drop 24 = pyHex 8 1 ∧
      (nonceHexOf (List.replicate 32 0) 3 2).drop 24 = pyHex 8 2 ∧
      (nonceHexOf (List.replicate 32 0) 3 1).drop 24 ≠
        (nonceHexOf (List.replicate 32 0) 3 2).drop 24 ∧
      nibblePairs (nonceHexOf (List.replicate 32 0) 3 1) ≠
        nibblePairs (nonceHexOf (List.replicate 32 0) 3 2)) ∧
    aes_ctr_encrypt (nibblePairs (List.replicate 32 0))
        (nibblePairs (nonceHexOf (List.replicate 32 0)
          (List.replicate 16 (7 : Nat)).length 1)) (List.replicate 16 7) ≠
      aes_ctr_encrypt (nibblePairs (List.replicate 32 0))
        (nibblePairs (nonceHexOf (List.replicate 32 0)
          (List.replicate 16 (7 : Nat)).length 2)) (List.replicate 16 7) :=
  ⟨⟨by decide, by decide, by decide, by decide, by decide, by decide, by decide⟩,
    C3_ctr_roundtrip_and_seq_distinctness.1 (List.replicate 16 0)
      (List.replicate 16 0) [1, 2, 3],
    C3_ctr_roundtrip_and_seq_distinctness.2.1 (List.replicate 32 0) 3 1 2
      (by decide) (by decide) (by decide) (by decide) (by decide) (by decide),
    C3_ctr_roundtrip_and_seq_distinctness.2.2 (List.replicate 32 0)
      (List.replicate 32 0) (List.replicate 16 7) 1 2 (by decide) (by decide)
      (by decide) (by decide) (by decide) (by decide) (by decide) (by decide)
      (by decide)⟩
